import Mathlib

/-!
# gin-handler: routing and response formatting over the gin router

A shallow embedding of the Go package `handler` (handler.go, action.go, context.go, error.go).

* Go `int` / `int64` values are integers (`Int`); the only place where the machine
  representation matters is the method mask test `Method & GET`, modelled on 64-bit
  two's complement words.
* Package-level variables live in `Process`, passed explicitly.
* The gin context is the record `GinContext`: the request parameters, the calls made to the
  response-writing functions of the host framework, and the state of the host's response
  writer (`ResponseWriter`), which follows gin and `net/http`: a status that is not positive
  is ignored, a status already sent is kept, and no body goes out under 1xx, 204 and 304.
* The gin router (`Engine`) panics as gin does: on a second registration of one method and
  path, on a handler chain of `abortIndex` = 63 entries or more, and on the assertions of
  `addRoute`; its verdict on path parameters is the field `tree`.
* A Go `map[string]T` is an association list with distinct keys (`AList`), its entry order
  standing for the (unspecified) iteration order.
* Of package `time`, dates are parsed for the two layouts in use; the local time zone and the
  text of a parse error are taken from `TimePackage`, passed explicitly.
-/

namespace GinHandler

/-! ## handler.go: methods and modes -/

/-- Go `type Method int`. -/
abbrev Method := Int

/-- Method bit `GET Method = 1 << iota` with iota = 0. -/
def GET : Method := 1

/-- Method bit `POST Method = 1 << iota` with iota = 1. -/
def POST : Method := 2

/-- Go `a & b` on 64-bit `int`: bitwise and of the two's complement words. -/
def Method.and (a b : Method) : Method :=
  let n := Nat.land (a % 2 ^ 64).toNat (b % 2 ^ 64).toNat
  if n < 2 ^ 63 then (n : Int) else (n : Int) - 2 ^ 64

def DebugMode : String := "debug"
def ReleaseMode : String := "release"
def TestMode : String := "test"

/-- The process the package runs in: the package variable `handlerMode`, the mode held by the
gin package, and the standard-library function `strconv.Quote` (used only to render the text
of number-parsing errors), which is left abstract. -/
structure Process where
  handlerMode : String
  ginMode : String
  Quote : String → String

/-- State at program start: `handlerMode = DebugMode` (gin starts in debug mode as well). -/
def Process.init (Quote : String → String) : Process :=
  { handlerMode := DebugMode, ginMode := DebugMode, Quote := Quote }

/-- Host framework `gin.SetMode` as reached from `SetMode` (its argument is never empty there):
the three known mode names are stored; any other name makes gin panic and leaves gin's mode
as it was. -/
def ginSetMode (value : String) (p : Process) : Process :=
  if value = DebugMode ∨ value = ReleaseMode ∨ value = TestMode then
    { p with ginMode := value }
  else p

/-- Go `SetMode`: an empty mode stands for release; the package variable is assigned before
the host framework is told. -/
def SetMode (mode : String) (p : Process) : Process :=
  let mode := if mode = "" then ReleaseMode else mode
  ginSetMode mode { p with handlerMode := mode }

/-- Go `Mode`. -/
def Mode (p : Process) : String := p.handlerMode

/-! ## action.go: error codes -/

def CodeSuccess : Int := 0
def CodeErrSignature : Int := 100010002
def CodeLoginRequired : Int := 100010006
def CodeUnknownError : Int := 100010007
def CodeBindMobile : Int := 100010008
def CodeBannedUser : Int := 200020004
def CodeUserLimit : Int := 200020005
def CodeSendMessageUserCountLimit : Int := 200020006
def CodeSendMessageLimit : Int := 200020008
def CodeSoundNotFound : Int := 200110001
def CodeAlbumNotFound : Int := 200120001
def CodeCommentNotFound : Int := 200310001
def CodeEventNotFound : Int := 200410001
def CodeTagNotFound : Int := 200430001
def CodeCardNotFound : Int := 200120001
def CodeDanmakuNotFound : Int := 200710001
def CodeDramaNotFound : Int := 200130001
def CodeEmptyParam : Int := 201010001
def CodeInvalidParam : Int := 201010002

/-- The `Error Codes` const block of action.go, in declaration order: name and value. -/
def errorCodes : List (String × Int) :=
  [("CodeSuccess", CodeSuccess),
   ("CodeErrSignature", CodeErrSignature),
   ("CodeLoginRequired", CodeLoginRequired),
   ("CodeUnknownError", CodeUnknownError),
   ("CodeBindMobile", CodeBindMobile),
   ("CodeBannedUser", CodeBannedUser),
   ("CodeUserLimit", CodeUserLimit),
   ("CodeSendMessageUserCountLimit", CodeSendMessageUserCountLimit),
   ("CodeSendMessageLimit", CodeSendMessageLimit),
   ("CodeSoundNotFound", CodeSoundNotFound),
   ("CodeAlbumNotFound", CodeAlbumNotFound),
   ("CodeCommentNotFound", CodeCommentNotFound),
   ("CodeEventNotFound", CodeEventNotFound),
   ("CodeTagNotFound", CodeTagNotFound),
   ("CodeCardNotFound", CodeCardNotFound),
   ("CodeDanmakuNotFound", CodeDanmakuNotFound),
   ("CodeDramaNotFound", CodeDramaNotFound),
   ("CodeEmptyParam", CodeEmptyParam),
   ("CodeInvalidParam", CodeInvalidParam)]

/-! ## Values and errors -/

/-- Go `interface{}` values as they appear in responses: nil, strings, integers, and
string-keyed mappings. -/
inductive Any where
  | null
  | str (s : String)
  | num (n : Int)
  | map (m : List (String × Any))

/-- Go `type M map[string]interface{}`. -/
abbrev M := AList (fun _ : String => Any)

/-- An `M` stored in an `interface{}`. -/
def Any.ofM (m : M) : Any :=
  .map (m.entries.map fun e => (e.1, e.2))

/-- Go `type ActionResponse interface{}`. -/
abbrev ActionResponse := Any

/-- Go `http.StatusOK`. -/
def StatusOK : Int := 200
/-- Go `http.StatusBadRequest`. -/
def StatusBadRequest : Int := 400
/-- Go `http.StatusForbidden`. -/
def StatusForbidden : Int := 403
/-- Go `http.StatusInternalServerError`. -/
def StatusInternalServerError : Int := 500

/-- Go `type APIError struct`. -/
structure APIError where
  Status : Int
  Message : String

/-- Go `type ActionError struct`; a nil `Info` map is `none`. -/
structure ActionError where
  Status : Int
  Code : Int
  Message : String
  Info : Option M

/-- The two failures of `strconv` number parsing. -/
inductive NumErrKind where
  | ErrSyntax
  | ErrRange
  deriving DecidableEq

/-- Go `strconv.NumError`: the failing function, the input and the failure. -/
structure NumError where
  Func : String
  Num : String
  Err : NumErrKind
  deriving DecidableEq

/-- Go `type ContextError struct` of error.go (the `caller` and `data` fields only feed the
logger); `E` is the type of Go errors. -/
structure ContextError (E : Type) where
  title : String
  err : Option E

/-- Go `type LoggerError struct`, which embeds `*ContextError`. -/
structure LoggerError (E : Type) where
  Status : Int
  Code : Int
  toContextError : ContextError E

/-- What the interface `ResponseError` exposes of a value: the results of its four methods. -/
structure ResponseError where
  StatusCode : Int
  ErrorCode : Int
  ErrorInfo : Any
  Error : String

/-- A non-nil Go `error`, by dynamic type. `rawResponse` is the package variable
`ErrRawResponse` (compared by identity in the code); `other msg` is any other error value
without further capabilities (for instance one made by `errors.New`) whose `Error()` is `msg`;
`responseError` is a value of any further type implementing `ResponseError`. -/
inductive GoError where
  | rawResponse
  | other (msg : String)
  | numError (e : NumError)
  | apiError (e : APIError)
  | actionError (e : ActionError)
  | loggerError (e : LoggerError GoError)
  | responseError (v : ResponseError)

/-- Go `NewActionError`. -/
def NewActionError (status code : Int) (msg : String) : ActionError :=
  { Status := status, Code := code, Message := msg, Info := none }

/-- Go `NewActionErrorWithInfo`. -/
def NewActionErrorWithInfo (status code : Int) (msg : String) (info : Option M) : ActionError :=
  { Status := status, Code := code, Message := msg, Info := info }

def ErrLoginRequired : ActionError := NewActionError StatusForbidden CodeLoginRequired "请先登录"
def ErrBadRequest : ActionError := NewActionError StatusBadRequest CodeUnknownError "错误的请求"
def ErrEmptyParam : ActionError := NewActionError StatusBadRequest CodeEmptyParam "参数不可为空"
def ErrInvalidParam : ActionError := NewActionError StatusBadRequest CodeInvalidParam "参数不合法"

/-- Go `ErrEmptyValue = errors.New("empty value")`. -/
def ErrEmptyValue : GoError := .other "empty value"

/-- Go `ErrInvalidDateRange`. -/
def ErrInvalidDateRange : GoError := .other "start_date > end_date"

/-- Go `ErrRawResponse`. -/
def ErrRawResponse : GoError := .rawResponse

/-- Go `(*APIError).Error`. -/
def APIError.Error (e : APIError) : String := e.Message

/-- Go `(*ActionError).StatusCode`. -/
def ActionError.StatusCode (e : ActionError) : Int := e.Status

/-- Go `(*ActionError).ErrorCode`. -/
def ActionError.ErrorCode (e : ActionError) : Int := e.Code

/-- Go `(*ActionError).Error`. -/
def ActionError.Error (e : ActionError) : String := e.Message

/-- The body of `(*ActionError).ErrorInfo` with its effect on the receiver made explicit:
the returned value and the receiver after the call. The loop writes into the fresh map
`info` only. -/
def ActionError.ErrorInfoRun (e : ActionError) : Any × ActionError :=
  match e.Info with
  | some eInfo =>
    let info : M := ∅
    let info := eInfo.entries.foldl (fun info kv => info.insert kv.1 kv.2) info
    let info := info.insert "msg" (.str e.Error)
    (Any.ofM info, e)
  | none => (.str e.Error, e)

/-- Go `(*ActionError).ErrorInfo`. -/
def ActionError.ErrorInfo (e : ActionError) : Any := e.ErrorInfoRun.1

/-- Text of the `strconv` failure. -/
def NumErrKind.Error : NumErrKind → String
  | .ErrSyntax => "invalid syntax"
  | .ErrRange => "value out of range"

/-- Go `(*strconv.NumError).Error`. -/
def NumError.Error (Quote : String → String) (e : NumError) : String :=
  "strconv." ++ e.Func ++ ": parsing " ++ Quote e.Num ++ ": " ++ e.Err.Error

/-- Go `Error()` of an error value; for a `LoggerError` this is `(*ContextError).Error`:
the title, followed by the text of the underlying error when there is one. -/
def GoError.Error (Quote : String → String) : GoError → String
  | .rawResponse => "response is managed by action handler"
  | .other msg => msg
  | .numError e => e.Error Quote
  | .apiError e => e.Error
  | .actionError e => e.Error
  | .loggerError ⟨_, _, ⟨title, none⟩⟩ => title
  | .loggerError ⟨_, _, ⟨title, some err⟩⟩ => title ++ ": " ++ err.Error Quote
  | .responseError v => v.Error

/-- Go `(*ContextError).Title`, promoted to `LoggerError`. -/
def LoggerError.Title (e : LoggerError GoError) : String := e.toContextError.title

/-- Go `(*ContextError).Error`, promoted to `LoggerError`. -/
def LoggerError.Error (Quote : String → String) (e : LoggerError GoError) : String :=
  (GoError.loggerError e).Error Quote

/-- Go `NewLoggerError`. -/
def NewLoggerError (status code : Int) (msg : String) : LoggerError GoError :=
  { Status := status, Code := code, toContextError := { title := msg, err := none } }

/-- Go `(*LoggerError).StatusCode`. -/
def LoggerError.StatusCode (e : LoggerError GoError) : Int := e.Status

/-- Go `(*LoggerError).ErrorCode`. -/
def LoggerError.ErrorCode (e : LoggerError GoError) : Int := e.Code

/-- Go `(*LoggerError).ErrorInfo`: the title alone in release mode. -/
def LoggerError.ErrorInfo (p : Process) (e : LoggerError GoError) : String :=
  if Mode p = ReleaseMode then e.Title else e.Error p.Quote

/-- The type assertion `err.(ResponseError)`: the method results when the dynamic type
implements the interface (`*ActionError`, `*LoggerError`, or a further implementor). -/
def GoError.asResponseError (p : Process) : GoError → Option ResponseError
  | .actionError e =>
    some { StatusCode := e.StatusCode, ErrorCode := e.ErrorCode, ErrorInfo := e.ErrorInfo,
           Error := e.Error }
  | .loggerError e =>
    some { StatusCode := e.StatusCode, ErrorCode := e.ErrorCode,
           ErrorInfo := .str (e.ErrorInfo p), Error := e.Error p.Quote }
  | .responseError v => some v
  | _ => none

/-! ## The gin context -/

/-- Go `type basicResponse struct`: the JSON envelope. -/
structure basicResponse where
  Code : Int
  Info : ActionResponse

/-- The host's response writer (gin's `responseWriter` over `net/http`): the HTTP status
sent or still to be sent, whether the header has been sent, the JSON envelopes sent in the
body, and whether `net/http` refused the status code by a panic. -/
structure ResponseWriter where
  status : Int
  written : Bool
  bodies : List basicResponse
  panicked : Bool

/-- The writer of a new request: status 200, nothing sent. -/
def ResponseWriter.fresh : ResponseWriter :=
  { status := 200, written := false, bodies := [], panicked := false }

/-- Host `bodyAllowedForStatus`: no body for 1xx, 204 and 304. -/
def bodyAllowedForStatus (status : Int) : Bool :=
  !(decide (100 ≤ status ∧ status ≤ 199) || decide (status = 204) || decide (status = 304))

/-- Host `(*responseWriter).WriteHeader(code)`: a code that is not positive is ignored, and
the status cannot change once the header has been sent. -/
def ResponseWriter.WriteHeader (w : ResponseWriter) (code : Int) : ResponseWriter :=
  if code > 0 ∧ w.status ≠ code ∧ w.written = false then { w with status := code } else w

/-- Host `(*responseWriter).WriteHeaderNow()`: sends the header once; `net/http` panics on
a status outside 100..999. -/
def ResponseWriter.WriteHeaderNow (w : ResponseWriter) : ResponseWriter :=
  if w.written then w
  else { w with written := true,
                panicked := w.panicked || decide (w.status < 100 ∨ w.status > 999) }

/-- Host `(*responseWriter).Write` of a rendered envelope: the header is sent first, and
`net/http` takes no body under a status that allows none; the envelope is then dropped.
(What gin does about that refusal, a panic in its older versions, an error entry and an
abort of the chain in its newer ones, is left out; no statement below rests on it.) -/
def ResponseWriter.Write (w : ResponseWriter) (obj : basicResponse) : ResponseWriter :=
  let w := w.WriteHeaderNow
  if w.panicked then w
  else if bodyAllowedForStatus w.status then { w with bodies := w.bodies ++ [obj] }
  else w

/-- Host `c.Render(code, JSON)` on the writer: the status is set, and the envelope is
written unless the code allows no body, in which case only the header is sent. -/
def ResponseWriter.JSON (w : ResponseWriter) (code : Int) (obj : basicResponse) :
    ResponseWriter :=
  let w := w.WriteHeader code
  if bodyAllowedForStatus code then w.Write obj else w.WriteHeaderNow

/-- The host framework's `*gin.Context` as this package uses it: the request (URL, the
key/value pairs of the query string and of the form body, in order), the values stored
under `c.Set`, newest first, whether the handler chain was aborted, and the response. Of the
response, `status` and `rendered` record what was handed to the host, call by call: the
status code of the last `Status` or `JSON` call, and every `JSON` call with its status code
and envelope; `Writer` is the state of the host's response writer, which decides what is
sent. -/
structure GinContext where
  url : String
  query : List (String × String)
  postForm : List (String × String)
  Keys : List (String × Any)
  status : Int
  rendered : List (Int × basicResponse)
  aborted : Bool
  Writer : ResponseWriter

/-- Host `c.Status(code)`. -/
def GinContext.Status (c : GinContext) (code : Int) : GinContext :=
  { c with status := code, Writer := c.Writer.WriteHeader code }

/-- Host `c.JSON(code, obj)`: hands the status and the envelope to the response writer. -/
def GinContext.JSON (c : GinContext) (code : Int) (obj : basicResponse) : GinContext :=
  { c with status := code, rendered := c.rendered ++ [(code, obj)],
           Writer := c.Writer.JSON code obj }

/-- Host `c.Abort()`. -/
def GinContext.Abort (c : GinContext) : GinContext :=
  { c with aborted := true }

/-- Host `c.AbortWithStatusJSON(code, obj)`: `Abort` followed by `JSON`. -/
def GinContext.AbortWithStatusJSON (c : GinContext) (code : Int) (obj : basicResponse) :
    GinContext :=
  c.Abort.JSON code obj

/-- Host `c.Set(key, value)`. -/
def GinContext.Set (c : GinContext) (key : String) (value : Any) : GinContext :=
  { c with Keys := (key, value) :: c.Keys }

/-- Host `c.Get(key)`: the value stored under `key`, nil when there is none. -/
def GinContext.Get (c : GinContext) (key : String) : Any × Bool :=
  match c.Keys.lookup key with
  | some v => (v, true)
  | none => (.null, false)

/-- Host `c.GetQuery(key)`: the first value of `key` in the query string. -/
def GinContext.GetQuery (c : GinContext) (key : String) : String × Bool :=
  match c.query.lookup key with
  | some v => (v, true)
  | none => ("", false)

/-- Host `c.GetPostForm(key)`: the first value of `key` in the form body. -/
def GinContext.GetPostForm (c : GinContext) (key : String) : String × Bool :=
  match c.postForm.lookup key with
  | some v => (v, true)
  | none => ("", false)

/-- Host `c.DefaultPostForm(key, defaultValue)`. -/
def GinContext.DefaultPostForm (c : GinContext) (key defaultValue : String) : String :=
  match c.GetPostForm key with
  | (v, true) => v
  | (_, false) => defaultValue

/-- Go `gin.HandlerFunc`: a handler acts on the gin context and may read the process state. -/
abbrev HandlerFunc := Process → GinContext → GinContext

/-! ## action.go: error translation -/

/-- Go `abortWithError`. -/
def abortWithError (c : GinContext) (status code : Int) (info : Any) : GinContext :=
  c.AbortWithStatusJSON status { Code := code, Info := info }

/-- Go `abortError`: the type switch on the error value. The call `l.Log` made for a
`ContextLogger` only reaches the logging sink and leaves the context as it is. -/
def abortError (p : Process) (c : GinContext) (err : GoError) : GinContext :=
  match err with
  | .apiError v => abortWithError c v.Status CodeUnknownError (.str v.Message)
  | _ =>
    match err.asResponseError p with
    | some v =>
      let c := c.Status v.StatusCode
      abortWithError c v.StatusCode v.ErrorCode v.ErrorInfo
    | none =>
      let c := c.Status StatusInternalServerError
      abortWithError c StatusInternalServerError CodeUnknownError (.str (err.Error p.Quote))

/-! ## context.go: the request context -/

/-- Go `type Context struct` (the `sync.Once` guards carry no data). -/
structure Context where
  C : GinContext
  equipErr : Option GoError
  buvid : String
  buvidErr : Option GoError
  userErr : Option GoError

/-- Go composite literal `Context{C: c}`: every other field has its zero value. -/
def Context.new (c : GinContext) : Context :=
  { C := c, equipErr := none, buvid := "", buvidErr := none, userErr := none }

/-- Go `(*Context).GetEquipError`. -/
def Context.GetEquipError (ctx : Context) : Option GoError := ctx.equipErr

/-- Go `(*Context).GetUserError`. -/
def Context.GetUserError (ctx : Context) : Option GoError := ctx.userErr

/-! ## action.go: actions -/

/-- What a call of a business function leaves behind: the returned payload and error, and
the gin context after the call (the function holds a pointer to it and may have written a
response itself). -/
structure ActionResult where
  resp : ActionResponse
  err : Option GoError
  C : GinContext

/-- Go `type ActionFunc func(c *Context) (ActionResponse, error)`. -/
abbrev ActionFunc := Context → ActionResult

set_option linter.dupNamespace false in
/-- Go `type Action struct`. -/
structure Action where
  Method : Method
  Action : ActionFunc
  LoginRequired : Bool
  handler : HandlerFunc

/-- Go `(*Action).GetHandler`. -/
def Action.GetHandler (a : GinHandler.Action) : HandlerFunc := a.handler

/-- One run of the closure built by `NewAction`: the gin context when the closure returns,
and whether the business function was called on the way. -/
structure Run where
  C : GinContext
  invoked : Bool

/-- The closure `a.handler` of `NewAction`, statement by statement. -/
def NewAction.run (handler : ActionFunc) (loginRequired : Bool) (p : Process)
    (c : GinContext) : Run :=
  let ctx := Context.new c
  if loginRequired then
    let err :=
      match ctx.GetUserError with
      | none => GoError.actionError ErrLoginRequired
      | some err => err
    { C := abortError p c err, invoked := false }
  else
    let r := handler ctx
    match r.err with
    | some .rawResponse => { C := r.C, invoked := true }
    | some err => { C := abortError p r.C err, invoked := true }
    | none =>
      { C := r.C.JSON StatusOK { Code := CodeSuccess, Info := r.resp }, invoked := true }

/-- Go `NewAction`. -/
def NewAction (method : Method) (handler : ActionFunc) (loginRequired : Bool) : Action :=
  { Method := method, Action := handler, LoginRequired := loginRequired,
    handler := fun p c => (NewAction.run handler loginRequired p c).C }

/-- The numeric code under which `abortError` reports an error: `ErrorCode()` for a
`ResponseError`, `CodeUnknownError` for an `*APIError` and for every other error. -/
def GoError.numericCode (p : Process) (err : GoError) : Int :=
  match err with
  | .apiError _ => CodeUnknownError
  | _ =>
    match err.asResponseError p with
    | some v => v.ErrorCode
    | none => CodeUnknownError

/-! ## context.go: parameters -/

/-- Go `DefaultPageSize`. -/
def DefaultPageSize : Int := 20

/-- Go `MaxPageSize`. -/
def MaxPageSize : Int := 100

/-- Go `(*Context).GetDefaultParam`. -/
def Context.GetDefaultParam (ctx : Context) (key defaultValue : String) : String :=
  match ctx.C.GetQuery key with
  | (value, true) => value
  | (_, false) => ctx.C.DefaultPostForm key defaultValue

/-- Go `(*Context).GetParam`: the query string first, then the form body. -/
def Context.GetParam (ctx : Context) (key : String) : String × Bool :=
  match ctx.C.GetQuery key with
  | (value, true) => (value, true)
  | (_, false) => ctx.C.GetPostForm key

/-- Largest `uint64`. -/
def maxUint64 : Nat := 2 ^ 64 - 1

/-- The digit loop of Go `strconv.ParseUint(s, 10, 64)` from the accumulated value `n`:
a byte that is not a decimal digit is a syntax error; a value that leaves the `uint64`
range is a range error, reported as soon as it is met, with the largest value. -/
def parseUintLoop : List Char → Nat → Nat × Option NumErrKind
  | [], n => (n, none)
  | c :: cs, n =>
    if c.isDigit then
      if n ≥ maxUint64 / 10 + 1 then (maxUint64, some .ErrRange)
      else
        let n1 := n * 10 + (c.toNat - 48)
        if n1 > maxUint64 then (maxUint64, some .ErrRange)
        else parseUintLoop cs n1
    else (0, some .ErrSyntax)

/-- Go `strconv.ParseUint(s, 10, 64)`, without the error's text. -/
def ParseUint (s : List Char) : Nat × Option NumErrKind :=
  match s with
  | [] => (0, some .ErrSyntax)
  | _ => parseUintLoop s 0

/-- Go `strconv.ParseInt(s, 10, 64)`: an optional sign, then decimal digits; the value and
the error (nil on success). A syntax error gives 0, a range error the nearest `int64`. -/
def ParseInt (s : String) : Int × Option NumError :=
  match s.data with
  | [] => (0, some ⟨"ParseInt", s, .ErrSyntax⟩)
  | c :: cs =>
    let neg := c = '-'
    let digits := if c = '+' ∨ c = '-' then cs else c :: cs
    match ParseUint digits with
    | (_, some .ErrSyntax) => (0, some ⟨"ParseInt", s, .ErrSyntax⟩)
    | (un, _) =>
      let cutoff : Nat := 2 ^ 63
      if ¬ neg ∧ un ≥ cutoff then ((cutoff : Int) - 1, some ⟨"ParseInt", s, .ErrRange⟩)
      else if neg ∧ un > cutoff then (-(cutoff : Int), some ⟨"ParseInt", s, .ErrRange⟩)
      else (if neg then -(un : Int) else (un : Int), none)

/-- A `strconv` error as a Go `error`. -/
def NumError.toError : Option NumError → Option GoError
  | some e => some (.numError e)
  | none => none

/-- Go `(*Context).GetDefaultParamInt64`. -/
def Context.GetDefaultParamInt64 (ctx : Context) (key : String) (defaultValue : Int) :
    Int × Option GoError :=
  match ctx.GetParam key with
  | (_, false) => (defaultValue, none)
  | (val, true) =>
    let (value, err) := ParseInt val
    (value, NumError.toError err)

/-- Go `(*Context).GetParamInt64`. -/
def Context.GetParamInt64 (ctx : Context) (key : String) : Int × Option GoError :=
  match ctx.GetParam key with
  | (_, false) => (0, some ErrEmptyValue)
  | (val, true) =>
    let (value, err) := ParseInt val
    (value, NumError.toError err)

/-- Go `type PageOption struct`. -/
structure PageOption where
  DefaultPageSize : Int
  MaxPageSize : Int
  deriving DecidableEq

/-- Go `getPageSize`. -/
def getPageSize (ctx : Context) (option : PageOption) : Int × Option GoError :=
  match ctx.GetParam "pagesize" with
  | (size, true) =>
    let (value, err) := ParseInt size
    (value, NumError.toError err)
  | (_, false) =>
    match ctx.GetParam "page_size" with
    | (size, true) =>
      let (value, err) := ParseInt size
      (value, NumError.toError err)
    | (_, false) => (option.DefaultPageSize, none)

/-- Go `getPageOption`; a panic is `Except.error` with the panic value. The option returned
is the caller's option after the zero fields were filled in. -/
def getPageOption (opt : List PageOption) : Except String PageOption :=
  match opt with
  | [] => .ok { DefaultPageSize := DefaultPageSize, MaxPageSize := MaxPageSize }
  | [o] =>
    let o := if o.DefaultPageSize = 0 then { o with DefaultPageSize := DefaultPageSize } else o
    let o := if o.MaxPageSize = 0 then { o with MaxPageSize := MaxPageSize } else o
    if o.DefaultPageSize < 0 ∨ o.MaxPageSize < o.DefaultPageSize then
      .error "invalid page option"
    else .ok o
  | _ => .error "invalid page option"

/-- Go `(*Context).GetParamPage`: `(p, pageSize, err)`, or the panic of `getPageOption`. -/
def Context.GetParamPage (ctx : Context) (opt : List PageOption) :
    Except String (Int × Int × Option GoError) :=
  let (p, err) := ctx.GetDefaultParamInt64 "p" 1
  if err.isSome ∨ p ≤ 0 then .ok (0, 0, some (.actionError ErrInvalidParam))
  else
    match getPageOption opt with
    | .error msg => .error msg
    | .ok option =>
      let (pageSize, err) := getPageSize ctx option
      if err.isSome ∨ pageSize ≤ 0 ∨ pageSize > option.MaxPageSize then
        .ok (0, 0, some (.actionError ErrInvalidParam))
      else .ok (p, pageSize, none)

/-! ## The gin router -/

/-- The element pass of Go `path.Clean` over the slash-separated elements of a path, `out`
holding the elements kept so far, innermost first: empty elements and `.` are dropped; `..`
removes the element before it, is dropped at the root of a rooted path, and is kept at the
start of a relative one. -/
def cleanElems (rooted : Bool) : List (List Char) → List (List Char) → List (List Char)
  | [], out => out.reverse
  | e :: es, out =>
    if e = [] ∨ e = ['.'] then cleanElems rooted es out
    else if e = ['.', '.'] then
      match out with
      | top :: rest =>
        if top = ['.', '.'] then cleanElems rooted es (e :: out)
        else cleanElems rooted es rest
      | [] => if rooted then cleanElems rooted es [] else cleanElems rooted es [e]
    else cleanElems rooted es (e :: out)

/-- Go `path.Clean`: the shortest path equivalent to the argument; `.` for an empty result. -/
def pathClean (path : String) : String :=
  match path.data with
  | [] => "."
  | c :: _ =>
    let rooted : Bool := c = '/'
    let elems := cleanElems rooted (path.data.splitOn '/') []
    let body := List.intercalate ['/'] elems
    if rooted then String.mk ('/' :: body)
    else if body = [] then "." else String.mk body

/-- Go `path.Join`: the elements joined by slashes, leading empty elements ignored, then
cleaned; the empty string when every element is empty. -/
def pathJoin (elem : List String) : String :=
  if elem.all (fun e => e.data = []) then ""
  else
    let buf := elem.foldl
      (fun (buf : List Char) e =>
        if buf ≠ [] ∨ e.data ≠ [] then (if buf ≠ [] then buf ++ ['/'] else buf) ++ e.data
        else buf) []
    pathClean (String.mk buf)

/-- Host `joinPaths` of gin: `path.Join`, keeping a trailing slash of the relative path. -/
def joinPaths (absolutePath relativePath : String) : String :=
  if relativePath = "" then absolutePath
  else
    let finalPath := pathJoin [absolutePath, relativePath]
    if relativePath.data.getLast? = some '/' ∧ finalPath.data.getLast? ≠ some '/' then
      finalPath ++ "/"
    else finalPath

/-- Host `gin.RouterGroup`: the middleware of the scope and its base path. -/
structure RouterGroup where
  Handlers : List HandlerFunc
  basePath : String

/-- One registration made through the host router: method, absolute path, and the handler
chain, middleware first and the route's own handler last. -/
structure Route where
  method : String
  path : String
  handlers : List HandlerFunc

/-- The method and path of a route, under which the router files it. -/
def Route.key (r : Route) : String × String :=
  (r.method, r.path)

/-- A path with a parameter: it holds a `:` or a `*`. -/
def hasWildcard (path : String) : Bool :=
  path.data.any (fun c => c == ':' || c == '*')

/-- A panic of the host router while routes are registered: a handler chain that reaches
`abortIndex` ("too many handlers"), a path that does not begin with a slash, an empty
method, an empty chain, a second registration of one method and path ("handlers are already
registered for path"), and a conflict between path parameters. -/
inductive RouterPanic where
  | tooManyHandlers
  | pathNotRooted
  | emptyMethod
  | noHandlers
  | alreadyRegistered (path : String)
  | wildcardConflict (path : String)

/-- Host `gin.Engine` as far as mounting goes: its root group, the routes registered so far,
in order, and `tree`, the verdict of the host's routing tree on a registration in which a
path parameter is involved (whether the new route is accepted beside the routes present);
the rules behind that verdict differ between versions of the host. -/
structure Engine where
  RouterGroup : RouterGroup
  routes : List Route
  tree : List Route → Route → Bool

/-- Host `gin.New()`: no middleware, base path `/`, no route. -/
def ginNew (tree : List Route → Route → Bool) : Engine :=
  { RouterGroup := { Handlers := [], basePath := "/" }, routes := [], tree := tree }

/-- Host `abortIndex`: the bound on the length of a handler chain. -/
def abortIndex : Nat := 63

/-- Host `(*RouterGroup).combineHandlers`: the middleware of the scope followed by the
handlers; panics when the chain reaches `abortIndex`. -/
def RouterGroup.combineHandlers (group : RouterGroup) (handlers : List HandlerFunc) :
    Except RouterPanic (List HandlerFunc) :=
  let finalSize := group.Handlers.length + handlers.length
  if finalSize < abortIndex then .ok (group.Handlers ++ handlers)
  else .error .tooManyHandlers

/-- Host `(*RouterGroup).calculateAbsolutePath`. -/
def RouterGroup.calculateAbsolutePath (group : RouterGroup) (relativePath : String) : String :=
  joinPaths group.basePath relativePath

/-- Host `(*RouterGroup).Group(relativePath)`: a new scope with a copy of the middleware. -/
def RouterGroup.Group (group : RouterGroup) (relativePath : String) :
    Except RouterPanic RouterGroup :=
  match group.combineHandlers [] with
  | .error p => .error p
  | .ok handlers =>
    .ok { Handlers := handlers, basePath := group.calculateAbsolutePath relativePath }

/-- Host `(*RouterGroup).Use(middleware...)`. -/
def RouterGroup.Use (group : RouterGroup) (middleware : List HandlerFunc) : RouterGroup :=
  { group with Handlers := group.Handlers ++ middleware }

/-- Host `(*Engine).Use(middleware...)`. -/
def Engine.Use (engine : Engine) (middleware : List HandlerFunc) : Engine :=
  { engine with RouterGroup := engine.RouterGroup.Use middleware }

/-- Host `(*Engine).addRoute`: the path begins with a slash, the method is not empty, the
chain is not empty; a method and path registered before are refused; where a path parameter
is involved, in the new path or in a route of the same method, the routing tree decides; a
route that is accepted is added after the others. -/
def Engine.addRoute (engine : Engine) (method path : String) (handlers : List HandlerFunc) :
    Except RouterPanic Engine :=
  if path.data.head? ≠ some '/' then .error .pathNotRooted
  else if method = "" then .error .emptyMethod
  else if handlers.length = 0 then .error .noHandlers
  else if engine.routes.any (fun r => r.method = method ∧ r.path = path) then
    .error (.alreadyRegistered path)
  else if (hasWildcard path ||
        engine.routes.any (fun r => decide (r.method = method) && hasWildcard r.path)) &&
      !engine.tree engine.routes { method := method, path := path, handlers := handlers } then
    .error (.wildcardConflict path)
  else
    .ok { engine with
          routes := engine.routes ++ [{ method := method, path := path, handlers := handlers }] }

/-- Host `(*RouterGroup).handle`: registers the scope's middleware followed by the handler
under the absolute path. -/
def RouterGroup.handle (group : RouterGroup) (httpMethod relativePath : String)
    (handler : HandlerFunc) (engine : Engine) : Except RouterPanic Engine :=
  let absolutePath := group.calculateAbsolutePath relativePath
  match group.combineHandlers [handler] with
  | .error p => .error p
  | .ok handlers => engine.addRoute httpMethod absolutePath handlers

/-- Host `(*RouterGroup).GET`. -/
def RouterGroup.GET (group : RouterGroup) (relativePath : String) (handler : HandlerFunc)
    (engine : Engine) : Except RouterPanic Engine :=
  group.handle "GET" relativePath handler engine

/-- Host `(*RouterGroup).POST`. -/
def RouterGroup.POST (group : RouterGroup) (relativePath : String) (handler : HandlerFunc)
    (engine : Engine) : Except RouterPanic Engine :=
  group.handle "POST" relativePath handler engine

/-- Host `gin.Logger()`: writes the access log; the context is left as it is. -/
def ginLogger : HandlerFunc :=
  fun _ c => c

/-- Host `gin.Recovery()`: recovers from a panic of a later handler; the context is left as
it is. -/
def ginRecovery : HandlerFunc :=
  fun _ c => c

/-- Host `gin.Default()`: `gin.New()` with the logger and the recovery middleware. -/
def ginDefault (tree : List Route → Route → Bool) : Engine :=
  (ginNew tree).Use [ginLogger, ginRecovery]

/-! ## handler.go: the handler tree -/

/-- Go `type Handler struct`. -/
inductive Handler where
  | mk (Name : String) (Middlewares : List HandlerFunc)
      (Actions : AList (fun _ : String => Action)) (SubHandlers : List Handler)

def Handler.Name : Handler → String
  | .mk n _ _ _ => n

def Handler.Middlewares : Handler → List HandlerFunc
  | .mk _ m _ _ => m

def Handler.Actions : Handler → AList (fun _ : String => Action)
  | .mk _ _ a _ => a

def Handler.SubHandlers : Handler → List Handler
  | .mk _ _ _ s => s

/-- One pass of the loop `for name, action := range h.Actions` of `mount`; a panic of the
router ends it. -/
def mountAction (g : RouterGroup) (engine : Engine) (name : String) (action : Action) :
    Except RouterPanic Engine :=
  let actionHandler := action.GetHandler
  match (if Method.and action.Method GET ≠ 0 then g.GET name actionHandler engine
         else .ok engine) with
  | .error p => .error p
  | .ok engine =>
    if Method.and action.Method POST ≠ 0 then g.POST name actionHandler engine else .ok engine

/-- The loop `for name, action := range h.Actions` of `mount` over the entries of the map in
the order of iteration. -/
def mountActions (g : RouterGroup) :
    List (Sigma fun _ : String => Action) → Engine → Except RouterPanic Engine
  | [], engine => .ok engine
  | e :: rest, engine =>
    match mountAction g engine e.1 e.2 with
    | .error p => .error p
    | .ok engine => mountActions g rest engine

mutual
/-- Go `(*Handler).mount`: `g` is the parent scope, `engine` the router; a panic of the
router ends the mount. -/
def Handler.mount : Handler → RouterGroup → Engine → Except RouterPanic Engine
  | .mk Name Middlewares Actions SubHandlers, g, engine =>
    match g.Group Name with
    | .error p => .error p
    | .ok g =>
      let g := g.Use Middlewares
      match mountActions g Actions.entries engine with
      | .error p => .error p
      | .ok engine => Handler.mountSubs SubHandlers g engine
/-- The loop `for _, sub := range h.SubHandlers` of `mount`. -/
def Handler.mountSubs : List Handler → RouterGroup → Engine → Except RouterPanic Engine
  | [], _, engine => .ok engine
  | sub :: rest, g, engine =>
    match sub.mount g engine with
    | .error p => .error p
    | .ok engine => Handler.mountSubs rest g engine
end

/-- Go `(*Handler).Mount`. -/
def Handler.Mount (h : Handler) (r : Engine) : Except RouterPanic Engine :=
  h.mount r.RouterGroup r

/-! ## Notions used in the statements -/

/-- The context after an aborted JSON response: the chain is aborted, and the status and one
envelope are handed to the response writer after whatever was handed over before. -/
def GinContext.abortedWith (c : GinContext) (status code : Int) (info : Any) : GinContext :=
  { c with aborted := true, status := status,
           rendered := c.rendered ++ [(status, { Code := code, Info := info })],
           Writer := c.Writer.JSON status { Code := code, Info := info } }

/-- The page parameter as the page accessor reads it: the base-10 value of `p`, 1 when the
parameter is absent; with the parser's error. -/
def pageParam (ctx : Context) : Int × Option NumError :=
  match ctx.GetParam "p" with
  | (v, true) => ParseInt v
  | (_, false) => (1, none)

/-- The page size as the page accessor reads it: the value of `pagesize` if present, else of
`page_size` if present, else the default `D`; with the parser's error. -/
def pageSizeParam (ctx : Context) (D : Int) : Int × Option NumError :=
  match ctx.GetParam "pagesize" with
  | (v, true) => ParseInt v
  | (_, false) =>
    match ctx.GetParam "page_size" with
    | (v, true) => ParseInt v
    | (_, false) => (D, none)

/-- A request context with the given query string and nothing else. -/
def Context.ofQuery (query : List (String × String)) : Context :=
  Context.new { url := "/", query := query, postForm := [], Keys := [], status := 200,
                rendered := [], aborted := false, Writer := ResponseWriter.fresh }

/-- A business function that fails with a response error whose code is 0. -/
def failWithCodeZero : ActionFunc :=
  fun ctx => { resp := .null, err := some (.actionError (NewActionError 400 0 "bad")),
               C := ctx.C }

/-- Host dispatch of a handler chain: the handlers run in order, and none runs once the
chain is aborted. (A middleware that ends with `c.Next()` hands over to the rest of the
chain, which is what happens when it returns.) -/
def runChain (handlers : List HandlerFunc) (p : Process) (c : GinContext) : GinContext :=
  handlers.foldl (fun c handler => if c.aborted then c else handler p c) c

/-- Host routing for fixed paths: the registration of the method and path, if any, run on a
fresh request for that URL. -/
def Engine.serve (r : Engine) (p : Process) (method url : String) : Option GinContext :=
  match r.routes.find? (fun route => route.method = method ∧ route.path = url) with
  | some route =>
    some (runChain route.handlers p
      { url := url, query := [], postForm := [], Keys := [], status := 200, rendered := [],
        aborted := false, Writer := ResponseWriter.fresh })
  | none => none

/-- The middleware of `TestHandlerMount`: stores the request URL under "url". -/
def testMiddleware : HandlerFunc :=
  fun _ c => c.Set "url" (.str c.url)

/-- The business function `actionTest` of `TestHandlerMount`: answers the stored URL. -/
def actionTest : ActionFunc :=
  fun c => { resp := (c.C.Get "url").1, err := none, C := c.C }

/-- Handler `h3` of `TestHandlerMount`. -/
def testH3 : Handler :=
  .mk "3" [] (AList.insert "/test" (NewAction GET actionTest false) ∅) []

/-- Handler `h2` of `TestHandlerMount`. -/
def testH2 : Handler :=
  .mk "2" [] (AList.insert "/test" (NewAction GET actionTest false) ∅) [testH3]

/-- Handler `h1` of `TestHandlerMount`. -/
def testH1 : Handler :=
  .mk "1" [testMiddleware] (AList.insert "/test" (NewAction POST actionTest false) ∅) [testH2]

/-- A middleware that records under `name` that it ran. -/
def markMiddleware (name : String) : HandlerFunc :=
  fun _ c => c.Set name (.str c.url)

/-- The business functions `API1` .. `API4` of the example controllers: `return nil, nil`. -/
def exampleAPI : ActionFunc :=
  fun c => { resp := .null, err := none, C := c.C }

/-- A tree with two sibling groups under one root, each group with a middleware of its
own. -/
def siblingTree : Handler :=
  .mk "v1" [markMiddleware "v1"] ∅
    [.mk "one" [markMiddleware "one"] (AList.insert "api1" (NewAction POST exampleAPI false) ∅) [],
     .mk "two" [markMiddleware "two"] (AList.insert "api2" (NewAction POST exampleAPI false) ∅) []]

/-- The groups reachable from a handler: `Descent h path G` says that `path` lists the
groups from `h` down to `G`, both included, each one a sub-handler of the one before. -/
inductive Descent : Handler → List Handler → Handler → Prop where
  | here (h : Handler) : Descent h [h] h
  | sub {h s : Handler} {path : List Handler} {G : Handler} :
      s ∈ h.SubHandlers → Descent s path G → Descent h (h :: path) G

/-- The path of a route: the names of the groups, root first, joined one after the other onto
the base path by the router's path join, followed by the key of the action. -/
def routePath (base : String) (names : List String) (key : String) : String :=
  joinPaths (names.foldl joinPaths base) key

/-- The middleware met on the way down a list of groups, in root-to-leaf order. -/
def middlewareChain (path : List Handler) : List HandlerFunc :=
  (path.map Handler.Middlewares).flatten

/-- The methods under which `mount` registers an action: GET when the GET bit of its mask is
set, POST when the POST bit is set. -/
def Action.serves (a : GinHandler.Action) (method : String) : Prop :=
  (method = "GET" ∧ Method.and a.Method GET ≠ 0) ∨
  (method = "POST" ∧ Method.and a.Method POST ≠ 0)

/-- The route `r` is the registration, under the scope `g`, of an action of a group
reachable from `h`. -/
def Registers (h : Handler) (g : RouterGroup) (r : Route) : Prop :=
  ∃ (path : List Handler) (G : Handler) (key : String) (action : Action),
    Descent h path G ∧ AList.lookup key G.Actions = some action ∧ action.serves r.method ∧
    r.path = routePath g.basePath (path.map Handler.Name) key ∧
    r.handlers = g.Handlers ++ middlewareChain path ++ [action.GetHandler]

/-- The scope `mount` opens for a group under the scope `g`: the base path joined with the
name of the group, and the middleware of `g` followed by the middleware of the group. -/
def RouterGroup.scope (g : RouterGroup) (name : String) (middlewares : List HandlerFunc) :
    RouterGroup :=
  { Handlers := g.Handlers ++ middlewares, basePath := joinPaths g.basePath name }

/-- The route that a call of `handle` on the scope `g` asks the router for. -/
def RouterGroup.route (g : RouterGroup) (method relativePath : String) (handler : HandlerFunc) :
    Route :=
  { method := method, path := joinPaths g.basePath relativePath,
    handlers := g.Handlers ++ [handler] }

/-- The routes that one pass of the action loop asks the router for, in order. -/
def actionRoutes (g : RouterGroup) (name : String) (action : Action) : List Route :=
  (if Method.and action.Method GET ≠ 0 then [g.route "GET" name action.GetHandler] else []) ++
  (if Method.and action.Method POST ≠ 0 then [g.route "POST" name action.GetHandler] else [])

mutual
/-- The routes that mounting a handler under the scope `g` asks the router for, in order. -/
def Handler.planned : Handler → RouterGroup → List Route
  | .mk Name Middlewares Actions SubHandlers, g =>
    (Actions.entries.map (fun e => actionRoutes (g.scope Name Middlewares) e.1 e.2)).flatten ++
      Handler.plannedSubs SubHandlers (g.scope Name Middlewares)
/-- The routes that mounting a list of sub-handlers asks the router for, in order. -/
def Handler.plannedSubs : List Handler → RouterGroup → List Route
  | [], _ => []
  | sub :: rest, g => sub.planned g ++ Handler.plannedSubs rest g
end

mutual
/-- Every scope opened while mounting a handler under `g` is opened under a chain shorter
than `abortIndex`. -/
def Handler.scopesOK : Handler → RouterGroup → Prop
  | .mk Name Middlewares _ SubHandlers, g =>
    g.Handlers.length < abortIndex ∧ Handler.scopesOKSubs SubHandlers (g.scope Name Middlewares)
/-- The same for a list of sub-handlers. -/
def Handler.scopesOKSubs : List Handler → RouterGroup → Prop
  | [], _ => True
  | sub :: rest, g => sub.scopesOK g ∧ Handler.scopesOKSubs rest g
end

/-- What the router asserts of a route besides its place among the others: the path begins
with a slash, the method is not empty, the chain is shorter than `abortIndex`. -/
def Checked (r : Route) : Prop :=
  r.path.data.head? = some '/' ∧ r.method ≠ "" ∧ r.handlers.length < abortIndex

/-- The computation `f` on the router registers the routes `P`, under the condition `C` on
the scopes: when it returns, the routes are added in order, their keys are new and distinct,
they pass the router's assertions and `C` holds; and it does return when the routes lie
within a list of routes with distinct keys and without path parameters, pass the assertions,
and `C` holds. -/
def Realises (f : Engine → Except RouterPanic Engine) (P : List Route) (C : Prop) : Prop :=
  (∀ e e1 : Engine, f e = .ok e1 →
      e1 = { e with routes := e.routes ++ P } ∧
      ((e.routes.map Route.key).Nodup → ((e.routes ++ P).map Route.key).Nodup) ∧
      (∀ r ∈ P, Checked r) ∧ C) ∧
  (∀ (e : Engine) (F : List Route), e.routes ++ P <+: F → (F.map Route.key).Nodup →
      (∀ r ∈ F, hasWildcard r.path = false) → (∀ r ∈ P, Checked r) → C →
      f e = .ok { e with routes := e.routes ++ P })

/-- A routing tree that accepts every path parameter. -/
def acceptAll : List Route → Route → Bool :=
  fun _ _ => true

/-- A plain path segment: not empty, without a slash, and neither `.` nor `..`. -/
def PlainSegment (s : List Char) : Prop :=
  s ≠ [] ∧ '/' ∉ s ∧ s ≠ ['.'] ∧ s ≠ ['.', '.']

/-- A business function that writes a response of its own with status 201 and then
returns a payload and a nil error. -/
def writesCreated : ActionFunc :=
  fun ctx => { resp := .str "made", err := none,
               C := ctx.C.JSON 201 { Code := 0, Info := .str "own" } }

/-- A business function that answers "pong". -/
def answerPong : ActionFunc :=
  fun ctx => { resp := .str "pong", err := none, C := ctx.C }

/-- A business function that writes its own response and returns the raw-response
sentinel. -/
def rawWriter : ActionFunc :=
  fun ctx => { resp := .null, err := some ErrRawResponse,
               C := ctx.C.JSON 200 { Code := 0, Info := .str "raw" } }

/-! ## context.go: integer parameters -/

/-- The digit loop of the fast path of Go `strconv.Atoi`: a byte that is not a decimal digit
ends it with a syntax error (`none`). -/
def atoiLoop : List Char → Nat → Option Nat
  | [], n => some n
  | ch :: cs, n => if ch.isDigit then atoiLoop cs (n * 10 + (ch.toNat - 48)) else none

/-- Go `strconv.Atoi` where `int` has 64 bits: inputs of 1 to 18 bytes take the fast path
(a sign, then the digit loop, no range check needed); every other input goes through
`ParseInt`, whose error is relabelled with the function name `Atoi`. -/
def Atoi (s : String) : Int × Option NumError :=
  let sLen := s.utf8ByteSize
  if 0 < sLen ∧ sLen < 19 then
    match s.data with
    | [] => (0, some ⟨"Atoi", s, .ErrSyntax⟩)
    | c :: cs =>
      let signed := c = '-' ∨ c = '+'
      let digits := if signed then cs else c :: cs
      if signed ∧ digits = [] then (0, some ⟨"Atoi", s, .ErrSyntax⟩)
      else
        match atoiLoop digits 0 with
        | none => (0, some ⟨"Atoi", s, .ErrSyntax⟩)
        | some n => (if c = '-' then -(n : Int) else (n : Int), none)
  else
    let (i64, err) := ParseInt s
    (i64, err.map fun nerr => { nerr with Func := "Atoi" })

/-- Go `(*Context).GetDefaultParamInt`. -/
def Context.GetDefaultParamInt (ctx : Context) (key : String) (defaultValue : Int) :
    Int × Option GoError :=
  match ctx.GetParam key with
  | (_, false) => (defaultValue, none)
  | (val, true) =>
    let (value, err) := Atoi val
    (value, NumError.toError err)

/-- Go `(*Context).GetParamInt`. -/
def Context.GetParamInt (ctx : Context) (key : String) : Int × Option GoError :=
  match ctx.GetParam key with
  | (_, false) => (0, some ErrEmptyValue)
  | (val, true) =>
    let (value, err) := Atoi val
    (value, NumError.toError err)

/-- The value of a parameter: the first value of the key in the query string if the key is
present there, otherwise its first value in the form body, if any. -/
def paramValue (ctx : Context) (key : String) : Option String :=
  match ctx.C.query.lookup key with
  | some v => some v
  | none => ctx.C.postForm.lookup key

/-- A request context with the given query string and form body. -/
def Context.ofRequest (query postForm : List (String × String)) : Context :=
  Context.new { url := "/", query := query, postForm := postForm, Keys := [], status := 200,
                rendered := [], aborted := false, Writer := ResponseWriter.fresh }

/-! ## context.go: string parameters -/

/-- Go `unicode.IsSpace`: the characters with the Unicode White_Space property. -/
def isSpace (c : Char) : Bool :=
  (9 ≤ c.toNat ∧ c.toNat ≤ 13) ∨ c.toNat = 0x20 ∨ c.toNat = 0x85 ∨ c.toNat = 0xA0 ∨
  c.toNat = 0x1680 ∨ (0x2000 ≤ c.toNat ∧ c.toNat ≤ 0x200A) ∨ c.toNat = 0x2028 ∨
  c.toNat = 0x2029 ∨ c.toNat = 0x202F ∨ c.toNat = 0x205F ∨ c.toNat = 0x3000

/-- Go `strings.TrimSpace`: the string without its leading and trailing white space. -/
def TrimSpace (s : String) : String :=
  String.mk ((s.data.dropWhile isSpace).reverse.dropWhile isSpace).reverse

/-- Go `(*Context).GetParamString`. -/
def Context.GetParamString (ctx : Context) (key : String) : String × Bool :=
  match ctx.GetParam key with
  | (_, false) => ("", false)
  | (raw, true) => (TrimSpace raw, true)

/-- Go `(*Context).GetDefaultParamString`. -/
def Context.GetDefaultParamString (ctx : Context) (key defaultValue : String) : String :=
  match ctx.GetParamString key with
  | (value, true) => value
  | (_, false) => defaultValue

/-- A string without leading or trailing white space: neither its first nor its last
character, if any, is a space. -/
def Trimmed (s : String) : Prop :=
  (∀ c, s.data.head? = some c → isSpace c = false) ∧
  (∀ c, s.data.getLast? = some c → isSpace c = false)

/-! ## context.go: date ranges -/

/-- Go `time.Location` as `time.Date` uses it: `lookup unix` gives the offset in seconds east
of UTC in force at the instant `unix`, and the interval of instants `[start, end)` over which
that offset is in force. -/
structure Location where
  lookup : Int → Int × Int × Int

/-- A location with one fixed offset at all times (offset 0: UTC). -/
def Location.fixed (offset : Int) : Location :=
  { lookup := fun _ => (offset, -(2 ^ 63), 2 ^ 63 - 1) }

/-- Go `time.Time`, as an instant: seconds since January 1, 1970 UTC (the times of this
package are dates at midnight and carry no fraction of a second). -/
structure Time where
  unix : Int
  deriving DecidableEq

/-- The zero `time.Time{}`: January 1, year 1, 00:00:00 UTC. -/
def Time.zero : Time := { unix := -62135596800 }

/-- Go `(Time).Before`: `t` is an earlier instant than `u`. -/
def Time.Before (t u : Time) : Bool := decide (t.unix < u.unix)

/-- Go `(Time).After`: `t` is a later instant than `u`. -/
def Time.After (t u : Time) : Bool := decide (t.unix > u.unix)

/-- Go `time.isLeap`. -/
def isLeap (year : Int) : Bool :=
  decide (year % 4 = 0 ∧ (year % 100 ≠ 0 ∨ year % 400 = 0))

/-- Go `time.daysBefore`: the days of a non-leap year before the start of each month. -/
def daysBefore : List Int := [0, 31, 59, 90, 120, 151, 181, 212, 243, 273, 304, 334, 365]

/-- Go `time.daysIn`. -/
def daysIn (m : Int) (year : Int) : Int :=
  if m = 2 ∧ isLeap year = true then 29
  else daysBefore.getD m.toNat 0 - daysBefore.getD (m - 1).toNat 0

/-- Go `time.daysSinceEpoch`: the days from the absolute epoch (the start of the year
-292277022399) to the start of `year`, by 400-, 100- and 4-year cycles. -/
def daysSinceEpoch (year : Int) : Int :=
  let y := year - (-292277022399)
  let n := y / 400
  let y := y - 400 * n
  let d := 146097 * n
  let n := y / 100
  let y := y - 100 * n
  let d := d + 36524 * n
  let n := y / 4
  let y := y - 4 * n
  let d := d + 1461 * n
  d + 365 * y

/-- Go `time.Date(year, month, day, 0, 0, 0, 0, loc)` for a month in 1..12 and a day of that
month (nothing to normalise): the instant at which the clock of `loc` shows midnight of that
day. The offset is looked up at the wall-clock reading taken as UTC, and looked up again at
the adjusted instant when that falls outside the interval of the first answer. The 64-bit
arithmetic of the original wraps around and back, with the same result. -/
def Date (year month day : Int) (loc : Location) : Time :=
  let d := daysSinceEpoch year
  let d := d + daysBefore.getD (month - 1).toNat 0
  let d := if isLeap year = true ∧ month ≥ 3 then d + 1 else d
  let d := d + (day - 1)
  let abs := d * 86400
  let unix := abs + (-9223371966579724800 + -62135596800)
  match loc.lookup unix with
  | (offset, start, stop) =>
    if offset ≠ 0 then
      let utc := unix - offset
      let offset := if utc < start ∨ utc ≥ stop then (loc.lookup utc).1 else offset
      { unix := unix - offset }
    else { unix := unix }

/-- The two layouts this package parses. -/
inductive Layout where
  | date
  | month
  deriving DecidableEq

/-- The layout strings: `"2006-01-02"` and `"2006-01"`. -/
def Layout.text : Layout → String
  | .date => "2006-01-02"
  | .month => "2006-01"

/-- The elements of a layout, as Go `time.nextStdChunk` cuts it: a four-digit year, a
two-digit month, a two-digit day, and literal characters between them. -/
inductive LayoutElem where
  | stdLongYear
  | stdZeroMonth
  | stdZeroDay
  | literal (c : Char)
  deriving DecidableEq

/-- The elements of the two layouts. -/
def Layout.elems : Layout → List LayoutElem
  | .date => [.stdLongYear, .literal '-', .stdZeroMonth, .literal '-', .stdZeroDay]
  | .month => [.stdLongYear, .literal '-', .stdZeroMonth]

/-- Go `time.getnum(s, true)`: exactly two decimal digits. -/
def getnum : List Char → Option (Int × List Char)
  | a :: b :: rest =>
    if a.isDigit ∧ b.isDigit then some (((a.toNat - 48) * 10 + (b.toNat - 48) : Nat), rest)
    else none
  | _ => none

/-- The element loop of Go `time.parse`: `none` stands for a `ParseError`. The year needs
four digits, the month two digits in 1..12, the day two digits (checked against the month
afterwards), a literal must match, and no text may remain. -/
def parseElems : List LayoutElem → List Char → Int → Int → Int → Option (Int × Int × Int)
  | [], value, year, month, day => if value = [] then some (year, month, day) else none
  | .literal c :: es, value, year, month, day =>
    match value with
    | v :: rest => if v = c then parseElems es rest year month day else none
    | [] => none
  | .stdLongYear :: es, value, _, month, day =>
    match value with
    | a :: b :: c :: d :: rest =>
      if a.isDigit ∧ b.isDigit ∧ c.isDigit ∧ d.isDigit then
        parseElems es rest
          (((a.toNat - 48) * 1000 + (b.toNat - 48) * 100 + (c.toNat - 48) * 10
            + (d.toNat - 48) : Nat) : Int) month day
      else none
    | _ => none
  | .stdZeroMonth :: es, value, year, _, day =>
    match getnum value with
    | some (month, rest) =>
      if month ≤ 0 ∨ 12 < month then none else parseElems es rest year month day
    | none => none
  | .stdZeroDay :: es, value, year, month, _ =>
    match getnum value with
    | some (day, rest) => parseElems es rest year month day
    | none => none

/-- Go `time.ParseError`, by what it was raised for: the layout and the value. (Its other
fields say where parsing stopped.) -/
structure ParseError where
  Layout : String
  Value : String
  deriving DecidableEq

/-- Go `time.ParseInLocation(layout, value, loc)` for the two layouts: the elements are
parsed, a missing day is the first, the day must exist in the month, and the date is taken
at midnight in `loc`. A failure gives the zero time and a `ParseError`. -/
def ParseInLocation (layout : Layout) (value : String) (loc : Location) :
    Time × Option ParseError :=
  match parseElems layout.elems value.data 0 (-1) (-1) with
  | none => (Time.zero, some { Layout := layout.text, Value := value })
  | some (year, month, day) =>
    let month := if month < 0 then 1 else month
    let day := if day < 0 then 1 else day
    if day < 1 ∨ day > daysIn month year then
      (Time.zero, some { Layout := layout.text, Value := value })
    else (Date year month day loc, none)

/-- What the package takes from package `time`: the local time zone `time.Local`, and the
text of a parse error, `(*time.ParseError).Error`, which is left abstract. -/
structure TimePackage where
  Local : Location
  errorText : ParseError → String

/-- A `time` parse error as a Go `error`. -/
def ParseError.toError (tz : TimePackage) : Option ParseError → Option GoError
  | some e => some (.other (tz.errorText e))
  | none => none

/-- The body shared by `GetParamDateRange` and `GetParamMonthRange`, which differ in the
parameter names and the layout only: the three named results `(start, end, err)`. -/
def Context.getParamRange (tz : TimePackage) (ctx : Context) (layout : Layout)
    (startKey endKey defaultStartDate defaultEndDate : String) : Time × Time × Option GoError :=
  let (startDateStr, ok) := ctx.GetParam startKey
  let startDateStr := if !ok ∧ defaultStartDate ≠ "" then defaultStartDate else startDateStr
  let (endDateStr, ok) := ctx.GetParam endKey
  let endDateStr := if !ok ∧ defaultEndDate ≠ "" then defaultEndDate else endDateStr
  match ParseInLocation layout startDateStr tz.Local with
  | (startDate, some err) => (startDate, Time.zero, ParseError.toError tz (some err))
  | (startDate, none) =>
    match ParseInLocation layout endDateStr tz.Local with
    | (endDate, some err) => (startDate, endDate, ParseError.toError tz (some err))
    | (endDate, none) =>
      if endDate.Before startDate then (startDate, endDate, some ErrInvalidDateRange)
      else (startDate, endDate, none)

/-- Go `(*Context).GetParamDateRange`. -/
def Context.GetParamDateRange (tz : TimePackage) (ctx : Context)
    (defaultStartDate defaultEndDate : String) : Time × Time × Option GoError :=
  ctx.getParamRange tz .date "start_date" "end_date" defaultStartDate defaultEndDate

/-- Go `(*Context).GetParamMonthRange`. -/
def Context.GetParamMonthRange (tz : TimePackage) (ctx : Context)
    (defaultStartDate defaultEndDate : String) : Time × Time × Option GoError :=
  ctx.getParamRange tz .month "start_month" "end_month" defaultStartDate defaultEndDate

/-- The string of a bound of a range: the request value, or the default when the parameter
is absent. -/
def boundString (ctx : Context) (key dflt : String) : String :=
  match paramValue ctx key with
  | some v => v
  | none => dflt

/-- A `time` package whose local zone is at a fixed offset; the text of a parse error names
the value. -/
def fixedZone (offset : Int) : TimePackage :=
  { Local := Location.fixed offset, errorText := fun e => "parsing time " ++ e.Value }

/-- The outcome of a range accessor as the specification words it, from the strings of the
two bounds: the start is parsed first and its parse error ends the call; else the parse
error of the end does; else the range is invalid exactly when the start is strictly after
the end; otherwise both dates are returned without error. -/
def rangeOutcome (tz : TimePackage) (layout : Layout) (startStr endStr : String) :
    Time × Time × Option GoError :=
  match ParseInLocation layout startStr tz.Local with
  | (_, some err) => (Time.zero, Time.zero, some (.other (tz.errorText err)))
  | (start, none) =>
    match ParseInLocation layout endStr tz.Local with
    | (_, some err) => (start, Time.zero, some (.other (tz.errorText err)))
    | (stop, none) =>
      (start, stop, if start.After stop then some ErrInvalidDateRange else none)

/-- What the router's join puts before the elements of a key under a rooted base path: the
cleaned base path, followed by a slash unless it is the root. -/
def keyPrefix (base : String) : List Char :=
  match cleanElems true (base.data.splitOn '/') [] with
  | [] => ['/']
  | e :: es => '/' :: List.intercalate ['/'] (e :: es) ++ ['/']

/-- A group whose two keys differ and lead to one path. -/
def clashingGroup : Handler :=
  .mk "1" []
    ((AList.insert "test" (NewAction GET exampleAPI false) ∅).insert "/test"
      (NewAction GET exampleAPI false)) []

/-- Two sub-groups of one name that hold one key each, the same one, for different
actions. -/
def twinGroups : Handler :=
  .mk "v1" [] ∅
    [.mk "a" [] (AList.insert "x" (NewAction GET exampleAPI false) ∅) [],
     .mk "a" [] (AList.insert "x" (NewAction GET answerPong false) ∅) []]

/-- A proper path element: neither empty nor `.`. -/
def properElem (e : List Char) : Bool :=
  !(decide (e = []) || decide (e = ['.']))

/-- The path elements of a key: its slash-separated elements other than the empty one and
`.`. -/
def keyElems (k : String) : List (List Char) :=
  (k.data.splitOn '/').filter properElem

/-- A key that leads below its group: it has a path element, and none of its elements is
`..`. -/
def KeyBelow (k : String) : Prop :=
  keyElems k ≠ [] ∧ ['.', '.'] ∉ k.data.splitOn '/'

/-! ## Theorems -/

/-- C10: the mode is debug at program start; after `SetMode m` the mode is `m` for a
non-empty `m` and release for the empty string, whatever the process state was before; in
particular `SetMode "debug"` followed by `SetMode ""` leaves release. -/
theorem Mode_SetMode (Quote : String → String) (p : Process) (m : String) :
    Mode (Process.init Quote) = "debug" ∧
    Mode (SetMode m p) = (if m = "" then "release" else m) ∧
    Mode (SetMode "" (SetMode "debug" p)) = "release" := by
  refine ⟨rfl, ?_, ?_⟩
  · unfold SetMode ginSetMode Mode
    by_cases hm : m = ""
    · subst hm
      simp [ReleaseMode]
    · simp only [hm, if_false]
      split <;> rfl
  · unfold SetMode ginSetMode Mode
    simp [ReleaseMode]

/-- C7: the error-code block is not duplicate-free: the distinct constants
`CodeAlbumNotFound` and `CodeCardNotFound` carry the same value 200120001, so the values of
the registry are not pairwise distinct, although its names are; these two are the only
clash (the registry without `CodeCardNotFound` is duplicate-free). -/
theorem errorCodes_clash :
    CodeAlbumNotFound = 200120001 ∧ CodeCardNotFound = 200120001 ∧
    (errorCodes.map Prod.fst).Nodup ∧
    ¬ (errorCodes.map Prod.snd).Nodup ∧
    ((errorCodes.filter fun e => e.1 ≠ "CodeCardNotFound").map Prod.snd).Nodup := by
  refine ⟨rfl, rfl, ?_, ?_, ?_⟩ <;> decide

/-- Setting the status right before a JSON call with the same status changes nothing. -/
theorem JSON_WriteHeader (w : ResponseWriter) (code : Int) (obj : basicResponse) :
    (w.WriteHeader code).JSON code obj = w.JSON code obj := by
  have hidem : (w.WriteHeader code).WriteHeader code = w.WriteHeader code := by
    unfold ResponseWriter.WriteHeader
    split_ifs <;> simp_all
  unfold ResponseWriter.JSON
  simp only [hidem]

/-- The call `abortWithError` after `c.Status` with the same status. -/
theorem abortWithError_Status (c : GinContext) (status code : Int) (info : Any) :
    abortWithError (c.Status status) status code info = c.abortedWith status code info := by
  simp [abortWithError, GinContext.AbortWithStatusJSON, GinContext.Abort, GinContext.JSON,
    GinContext.Status, GinContext.abortedWith, JSON_WriteHeader]

/-- On a writer that has sent nothing, a JSON call with a status in 200..999 other than 204
and 304 sends that status and the envelope. -/
theorem JSON_unwritten (w : ResponseWriter) (code : Int) (obj : basicResponse)
    (hw : w.written = false) (hp : w.panicked = false)
    (h1 : 200 ≤ code) (h2 : code ≤ 999) (h3 : code ≠ 204) (h4 : code ≠ 304) :
    w.JSON code obj
      = { status := code, written := true, bodies := w.bodies ++ [obj], panicked := false } := by
  have hallowed : bodyAllowedForStatus code = true := by
    simp only [bodyAllowedForStatus, Bool.not_eq_true', Bool.or_eq_false_iff,
      decide_eq_false_iff_not]
    exact ⟨⟨by omega, h3⟩, h4⟩
  have hheader : (w.WriteHeader code).status = code ∧ (w.WriteHeader code).written = false ∧
      (w.WriteHeader code).bodies = w.bodies ∧ (w.WriteHeader code).panicked = false := by
    unfold ResponseWriter.WriteHeader
    split_ifs with h
    · exact ⟨rfl, hw, rfl, hp⟩
    · have : w.status = code := by
        by_contra hne
        exact h ⟨by omega, hne, hw⟩
      exact ⟨this, hw, rfl, hp⟩
  obtain ⟨hs, hwr, hb, hpa⟩ := hheader
  have hvalid : ¬ (code < 100 ∨ code > 999) := by omega
  simp only [ResponseWriter.JSON, hallowed, if_true, ResponseWriter.Write,
    ResponseWriter.WriteHeaderNow, hwr, Bool.false_eq_true, if_false, hpa, hs, hvalid,
    decide_False, Bool.or_self, hb]

/-- C3, as stated, fails: for an `*APIError` with status 204 the response is sent without
any envelope, and for one with status 0 the response has HTTP status 200, not 0. -/
theorem abortError_status_not_honoured :
    (abortError (Process.init id) (Context.ofQuery []).C
        (.apiError { Status := 204, Message := "gone" })).Writer
      = { status := 204, written := true, bodies := [], panicked := false } ∧
    (abortError (Process.init id) (Context.ofQuery []).C
        (.apiError { Status := 0, Message := "oops" })).Writer
      = { status := 200, written := true,
          bodies := [{ Code := 100010007, Info := .str "oops" }], panicked := false } := by
  refine ⟨rfl, rfl⟩

/-- C3, amended: error translation covers every error value by one of three branches, each
ending in one call `AbortWithStatusJSON(status, envelope)`. For an `*APIError` the call has
its own status, the code `CodeUnknownError` = 100010007 and its message; for a
`ResponseError` (an `*ActionError`, a `*LoggerError`, or any further implementor) its
`StatusCode()`, `ErrorCode()` and `ErrorInfo()`; for every other error (the raw-response
sentinel, a number-parsing error, any plain error) status 500, `CodeUnknownError` and its
`Error()` text. When nothing has been sent before and the status is in 200..999 and is
neither 204 nor 304, the response has that HTTP status and exactly that envelope. -/
theorem abortError_dispatch (p : Process) (c : GinContext) :
    CodeUnknownError = 100010007 ∧
    (∀ v : APIError,
      abortError p c (.apiError v) = c.abortedWith v.Status CodeUnknownError (.str v.Message)) ∧
    (∀ e : ActionError,
      abortError p c (.actionError e) = c.abortedWith e.StatusCode e.ErrorCode e.ErrorInfo) ∧
    (∀ e : LoggerError GoError,
      abortError p c (.loggerError e)
        = c.abortedWith e.StatusCode e.ErrorCode (.str (e.ErrorInfo p))) ∧
    (∀ v : ResponseError,
      abortError p c (.responseError v) = c.abortedWith v.StatusCode v.ErrorCode v.ErrorInfo) ∧
    (∀ msg : String,
      abortError p c (.other msg) = c.abortedWith 500 CodeUnknownError (.str msg)) ∧
    (∀ e : NumError,
      abortError p c (.numError e)
        = c.abortedWith 500 CodeUnknownError (.str (e.Error p.Quote))) ∧
    abortError p c .rawResponse
      = c.abortedWith 500 CodeUnknownError (.str "response is managed by action handler") ∧
    (∀ (status code : Int) (info : Any),
      c.Writer.written = false → c.Writer.panicked = false →
      200 ≤ status → status ≤ 999 → status ≠ 204 → status ≠ 304 →
      (c.abortedWith status code info).aborted = true ∧
      (c.abortedWith status code info).Writer
        = { status := status, written := true,
            bodies := c.Writer.bodies ++ [{ Code := code, Info := info }],
            panicked := false }) := by
  refine ⟨rfl, fun _ => rfl, ?_, ?_, ?_, ?_, ?_, ?_, ?_⟩
  · intro e
    exact abortWithError_Status c _ _ _
  · intro e
    exact abortWithError_Status c _ _ _
  · intro v
    exact abortWithError_Status c _ _ _
  · intro msg
    exact abortWithError_Status c _ _ _
  · intro e
    exact abortWithError_Status c _ _ _
  · exact abortWithError_Status c _ _ _
  · intro status code info hw hp h1 h2 h3 h4
    exact ⟨rfl, JSON_unwritten c.Writer status _ hw hp h1 h2 h3 h4⟩

/-- C3, amended, at concrete errors on a new request: an `*APIError` with status 404 is
answered with HTTP 404, code 100010007 and its message; `ErrInvalidParam` with HTTP 400,
its code and its message; a plain error with HTTP 500, code 100010007 and its text. -/
theorem abortError_dispatch_witness :
    (abortError (Process.init id) (Context.ofQuery []).C
        (.apiError { Status := 404, Message := "no such sound" })).Writer
      = { status := 404, written := true,
          bodies := [{ Code := 100010007, Info := .str "no such sound" }],
          panicked := false } ∧
    (abortError (Process.init id) (Context.ofQuery []).C (.actionError ErrInvalidParam)).Writer
      = { status := 400, written := true,
          bodies := [{ Code := 201010002, Info := .str "参数不合法" }], panicked := false } ∧
    (abortError (Process.init id) (Context.ofQuery []).C (.other "boom")).Writer
      = { status := 500, written := true,
          bodies := [{ Code := 100010007, Info := .str "boom" }], panicked := false } :=
  ⟨((abortError_dispatch (Process.init id) (Context.ofQuery []).C).2.1
      { Status := 404, Message := "no such sound" }).symm ▸
      ((abortError_dispatch (Process.init id) (Context.ofQuery []).C).2.2.2.2.2.2.2.2
        404 100010007 (.str "no such sound") rfl rfl (by decide) (by decide) (by decide)
        (by decide)).2,
   rfl, rfl⟩

/-- Copying the entries of a key-distinct list one by one into a map: a key of the list ends
up with its value in the list, any other key keeps what the map held. -/
theorem lookup_foldl_insert (k : String) (l : List (Sigma fun _ : String => Any))
    (hl : l.NodupKeys) (acc : M) :
    AList.lookup k (l.foldl (fun info kv => info.insert kv.1 kv.2) acc)
      = match List.dlookup k l with
        | some v => some v
        | none => AList.lookup k acc := by
  induction l generalizing acc with
  | nil => simp
  | cons e t ih =>
    obtain ⟨a, b⟩ := e
    have hnd := List.nodupKeys_cons.mp hl
    simp only [List.foldl_cons]
    rw [ih hnd.2]
    by_cases hka : k = a
    · subst hka
      have hnone : List.dlookup k t = none := List.dlookup_eq_none.mpr hnd.1
      rw [hnone, List.dlookup_cons_eq]
      simp
    · rw [List.dlookup_cons_ne _ _ hka, AList.lookup_insert_ne hka]

/-- The map built by the copy loop of `ErrorInfo` answers every key as the source map. -/
theorem lookup_copy (k : String) (m : M) :
    AList.lookup k (m.entries.foldl (fun info kv => info.insert kv.1 kv.2) (∅ : M))
      = AList.lookup k m := by
  rw [lookup_foldl_insert k m.entries m.nodupKeys]
  unfold AList.lookup
  cases List.dlookup k m.entries <;> simp

/-- C9: for an `ActionError` with a nil `Info`, `ErrorInfo()` is the message string; with a
non-nil `Info` (empty included) it is a mapping whose keys are the keys of `Info` together
with "msg", where "msg" maps to the message and every other key to its value in `Info`;
the receiver, `Info` included, is the same after the call. -/
theorem ActionError_ErrorInfo (e : ActionError) :
    (e.Info = none → e.ErrorInfo = .str e.Message) ∧
    (∀ m : M, e.Info = some m →
      ∃ info : M, e.ErrorInfo = Any.ofM info ∧
        (∀ k : String, k ∈ info ↔ k ∈ m ∨ k = "msg") ∧
        AList.lookup "msg" info = some (.str e.Message) ∧
        (∀ k : String, k ≠ "msg" → AList.lookup k info = AList.lookup k m)) ∧
    e.ErrorInfoRun.2 = e := by
  refine ⟨?_, ?_, ?_⟩
  · intro h
    simp [ActionError.ErrorInfo, ActionError.ErrorInfoRun, h, ActionError.Error]
  · intro m h
    refine ⟨(m.entries.foldl (fun info kv => info.insert kv.1 kv.2) (∅ : M)).insert "msg"
      (.str e.Message), ?_, ?_, ?_, ?_⟩
    · simp [ActionError.ErrorInfo, ActionError.ErrorInfoRun, h, ActionError.Error]
    · intro k
      rw [AList.mem_insert]
      have hk : k ∈ (m.entries.foldl (fun info kv => info.insert kv.1 kv.2) (∅ : M)) ↔ k ∈ m := by
        rw [← AList.lookup_isSome, ← AList.lookup_isSome, lookup_copy]
      rw [hk]
      tauto
    · exact AList.lookup_insert _
    · intro k hk
      rw [AList.lookup_insert_ne hk, lookup_copy]
  · unfold ActionError.ErrorInfoRun
    cases e.Info <;> rfl

/-- C9 at a concrete error: extra fields "field" and "msg" in `Info`; the answer has the
keys "msg" and "field", "msg" carrying the message of the error and not the entry of `Info`. -/
theorem ActionError_ErrorInfo_witness :
    (NewActionErrorWithInfo 400 CodeInvalidParam "bad"
        (some ((AList.insert "field" (Any.str "p") ∅).insert "msg" (Any.str "hidden")))).Info
      = some ((AList.insert "field" (Any.str "p") ∅).insert "msg" (Any.str "hidden")) ∧
    ∃ info : M,
      (NewActionErrorWithInfo 400 CodeInvalidParam "bad"
        (some ((AList.insert "field" (Any.str "p") ∅).insert "msg" (Any.str "hidden")))).ErrorInfo
        = Any.ofM info ∧
      (∀ k : String, k ∈ info ↔
        k ∈ ((AList.insert "field" (Any.str "p") ∅).insert "msg" (Any.str "hidden") : M)
          ∨ k = "msg") ∧
      AList.lookup "msg" info = some (.str "bad") ∧
      (∀ k : String, k ≠ "msg" → AList.lookup k info
        = AList.lookup k ((AList.insert "field" (Any.str "p") ∅).insert "msg" (Any.str "hidden") : M)) :=
  ⟨rfl, (ActionError_ErrorInfo _).2.1 _ rfl⟩

/-- C4, as stated, fails: a business function that has written a response with status 201
itself and then returns a payload with a nil error is called, and the response keeps HTTP
status 201 and carries two bodies, the function's and the wrapper's. -/
theorem NewAction_success_after_write :
    (NewAction.run writesCreated false (Process.init id) (Context.ofQuery []).C).invoked
      = true ∧
    (writesCreated (Context.new (Context.ofQuery []).C)).err = none ∧
    ((NewAction GET writesCreated false).GetHandler (Process.init id)
        (Context.ofQuery []).C).Writer
      = { status := 201, written := true,
          bodies := [{ Code := 0, Info := .str "own" }, { Code := 0, Info := .str "made" }],
          panicked := false } := by
  refine ⟨rfl, rfl, rfl⟩

/-- C4, amended: whenever the handler built by `NewAction` calls the business function and
the function returns the payload `P` with a nil error, the handler makes one host call,
`c.JSON(200, envelope)` with the envelope of code 0 and info `P`, on the context the
function left, and no other call. When nothing has been sent before that call, the response
is HTTP 200 with exactly that envelope, and the chain is not aborted. -/
theorem NewAction_success (method : Method) (f : ActionFunc) (loginRequired : Bool)
    (p : Process) (c : GinContext) (P : ActionResponse) (c1 : GinContext)
    (hinvoked : (NewAction.run f loginRequired p c).invoked = true)
    (hf : f (Context.new c) = { resp := P, err := none, C := c1 }) :
    (NewAction method f loginRequired).GetHandler p c = c1.JSON 200 { Code := 0, Info := P } ∧
    ((NewAction method f loginRequired).GetHandler p c).rendered
      = c1.rendered ++ [(200, { Code := 0, Info := P })] ∧
    (c1.Writer.written = false → c1.Writer.panicked = false →
      ((NewAction method f loginRequired).GetHandler p c).Writer
        = { status := 200, written := true,
            bodies := c1.Writer.bodies ++ [{ Code := 0, Info := P }], panicked := false } ∧
      ((NewAction method f loginRequired).GetHandler p c).aborted = c1.aborted) := by
  cases loginRequired with
  | true => simp [NewAction.run] at hinvoked
  | false =>
    have h : (NewAction method f false).GetHandler p c = c1.JSON 200 { Code := 0, Info := P } := by
      simp [NewAction, Action.GetHandler, NewAction.run, hf, StatusOK, CodeSuccess]
    refine ⟨h, by rw [h]; rfl, ?_⟩
    intro hw hp
    rw [h]
    exact ⟨JSON_unwritten c1.Writer 200 _ hw hp (by decide) (by decide) (by decide) (by decide),
      rfl⟩

/-- C4, amended, at a concrete action: a GET action that answers "pong" on a new request
gets HTTP 200 with the envelope of code 0 and info "pong", and the chain is not aborted. -/
theorem NewAction_success_witness :
    (NewAction.run answerPong false (Process.init id) (Context.ofQuery []).C).invoked = true ∧
    ((NewAction GET answerPong false).GetHandler (Process.init id)
        (Context.ofQuery []).C).rendered
      = [(200, { Code := 0, Info := .str "pong" })] ∧
    ((NewAction GET answerPong false).GetHandler (Process.init id) (Context.ofQuery []).C).Writer
      = { status := 200, written := true, bodies := [{ Code := 0, Info := .str "pong" }],
          panicked := false } ∧
    ((NewAction GET answerPong false).GetHandler (Process.init id) (Context.ofQuery []).C).aborted
      = false :=
  ⟨rfl,
   (NewAction_success GET answerPong false (Process.init id) (Context.ofQuery []).C
     (.str "pong") (Context.ofQuery []).C rfl rfl).2.1,
   ((NewAction_success GET answerPong false (Process.init id) (Context.ofQuery []).C
     (.str "pong") (Context.ofQuery []).C rfl rfl).2.2 rfl rfl).1,
   ((NewAction_success GET answerPong false (Process.init id) (Context.ofQuery []).C
     (.str "pong") (Context.ofQuery []).C rfl rfl).2.2 rfl rfl).2⟩

/-- C5: a handler built by `NewAction` with `loginRequired = true` answers every request,
hence every request lacking valid authentication, by aborting with status 403 and the
envelope of code 100010006 and info "请先登录", and never calls the business function. -/
theorem NewAction_loginRequired (method : Method) (f : ActionFunc) (p : Process)
    (c : GinContext) :
    (NewAction method f true).LoginRequired = true ∧
    (NewAction.run f true p c).invoked = false ∧
    (NewAction method f true).GetHandler p c
      = c.abortedWith 403 100010006 (.str "请先登录") := by
  refine ⟨rfl, rfl, ?_⟩
  exact abortWithError_Status c _ _ _

/-- C6, as stated, fails: a business function that fails with the response error
`NewActionError 400 0 "bad"` is called, returns a non-nil error, and the wrapper writes an
envelope whose code is 0. -/
theorem envelope_code_zero_on_failure :
    (NewAction.run failWithCodeZero false (Process.init id) (Context.ofQuery []).C).invoked
      = true ∧
    (failWithCodeZero (Context.new (Context.ofQuery []).C)).err.isSome = true ∧
    ((NewAction GET failWithCodeZero false).GetHandler (Process.init id)
        (Context.ofQuery []).C).rendered
      = [(400, { Code := 0, Info := .str "bad" })] := by
  refine ⟨rfl, rfl, rfl⟩

/-- C6, amended: when the wrapper calls the business function, then (a) on a nil error it
adds one envelope with code 0; (b) on the raw-response sentinel it adds none; (c) on any
other error it adds one envelope whose code is the numeric code of that error (`ErrorCode()`
of a `ResponseError`, `CodeUnknownError` for every other error); so the code of the envelope
it writes is 0 exactly when the function succeeded or failed with an error whose numeric
code is 0. -/
theorem envelope_code (method : Method) (f : ActionFunc) (loginRequired : Bool)
    (p : Process) (c : GinContext)
    (hinvoked : (NewAction.run f loginRequired p c).invoked = true) :
    ((f (Context.new c)).err = none →
      ((NewAction method f loginRequired).GetHandler p c).rendered
        = (f (Context.new c)).C.rendered ++ [(200, { Code := 0, Info := (f (Context.new c)).resp })]) ∧
    ((f (Context.new c)).err = some .rawResponse →
      (NewAction method f loginRequired).GetHandler p c = (f (Context.new c)).C) ∧
    (∀ e : GoError, (f (Context.new c)).err = some e → e ≠ .rawResponse →
      ∃ (status : Int) (info : Any),
        ((NewAction method f loginRequired).GetHandler p c).rendered
          = (f (Context.new c)).C.rendered
              ++ [(status, { Code := e.numericCode p, Info := info })]) ∧
    (∀ (status : Int) (env : basicResponse),
      ((NewAction method f loginRequired).GetHandler p c).rendered
          = (f (Context.new c)).C.rendered ++ [(status, env)] →
      (env.Code = 0 ↔
        (f (Context.new c)).err = none ∨
        ∃ e : GoError, (f (Context.new c)).err = some e ∧ e.numericCode p = 0)) := by
  cases loginRequired with
  | true => simp [NewAction.run] at hinvoked
  | false =>
    have key : ∀ e : GoError, e ≠ .rawResponse →
        ∃ (status : Int) (info : Any), ∀ c0 : GinContext,
          (abortError p c0 e).rendered
            = c0.rendered ++ [(status, { Code := e.numericCode p, Info := info })] := by
      intro e he
      cases e with
      | rawResponse => exact absurd rfl he
      | other msg => exact ⟨_, _, fun _ => rfl⟩
      | numError e => exact ⟨_, _, fun _ => rfl⟩
      | apiError e => exact ⟨_, _, fun _ => rfl⟩
      | actionError e => exact ⟨_, _, fun _ => rfl⟩
      | loggerError e => exact ⟨_, _, fun _ => rfl⟩
      | responseError v => exact ⟨_, _, fun _ => rfl⟩
    have hrun : ∀ e : GoError, (f (Context.new c)).err = some e → e ≠ .rawResponse →
        (NewAction method f false).GetHandler p c = abortError p (f (Context.new c)).C e := by
      intro e he hne
      simp only [NewAction, Action.GetHandler, NewAction.run, he]
      cases e with
      | rawResponse => exact absurd rfl hne
      | _ => rfl
    refine ⟨?_, ?_, ?_, ?_⟩
    · intro h
      simp [NewAction, Action.GetHandler, NewAction.run, h, GinContext.JSON, StatusOK,
        CodeSuccess]
    · intro h
      simp [NewAction, Action.GetHandler, NewAction.run, h]
    · intro e he hne
      obtain ⟨status, info, hk⟩ := key e hne
      exact ⟨status, info, by rw [hrun e he hne, hk]⟩
    · intro status env henv
      cases herr : (f (Context.new c)).err with
      | none =>
        have h200 : ((NewAction method f false).GetHandler p c).rendered
            = (f (Context.new c)).C.rendered
              ++ [(200, { Code := 0, Info := (f (Context.new c)).resp })] := by
          simp [NewAction, Action.GetHandler, NewAction.run, herr, GinContext.JSON, StatusOK,
            CodeSuccess]
        rw [h200] at henv
        have := List.append_cancel_left henv
        simp only [List.cons.injEq, Prod.mk.injEq, and_true] at this
        simp [← this.2]
      | some e =>
        by_cases hraw : e = .rawResponse
        · subst hraw
          have hsame : (NewAction method f false).GetHandler p c = (f (Context.new c)).C := by
            simp [NewAction, Action.GetHandler, NewAction.run, herr]
          rw [hsame] at henv
          have := congrArg List.length henv
          simp at this
        · obtain ⟨status1, info, hk⟩ := key e hraw
          rw [hrun e herr hraw, hk] at henv
          have := List.append_cancel_left henv
          simp only [List.cons.injEq, Prod.mk.injEq, and_true] at this
          simp [← this.2]

/-- C6, amended, at a concrete action: the function answering "pong" is called and succeeds,
and the one envelope added has code 0. -/
theorem envelope_code_witness :
    (NewAction.run answerPong false (Process.init id) (Context.ofQuery []).C).invoked = true ∧
    (answerPong (Context.new (Context.ofQuery []).C)).err = none ∧
    ((NewAction GET answerPong false).GetHandler (Process.init id)
        (Context.ofQuery []).C).rendered
      = (answerPong (Context.new (Context.ofQuery []).C)).C.rendered
          ++ [(200, { Code := 0, Info := (answerPong (Context.new (Context.ofQuery []).C)).resp })] :=
  ⟨rfl, rfl,
    (envelope_code GET answerPong false (Process.init id) (Context.ofQuery []).C rfl).1 rfl⟩

theorem toError_isSome (e : Option NumError) : (NumError.toError e).isSome = e.isSome := by
  cases e <;> rfl

/-- `GetDefaultParamInt64 "p" 1` reads the page parameter. -/
theorem GetDefaultParamInt64_p (ctx : Context) :
    ctx.GetDefaultParamInt64 "p" 1 = ((pageParam ctx).1, NumError.toError (pageParam ctx).2) := by
  unfold Context.GetDefaultParamInt64 pageParam
  rcases ctx.GetParam "p" with ⟨v, b⟩
  cases b <;> rfl

/-- The helper `getPageSize` reads the page size. -/
theorem getPageSize_eq (ctx : Context) (option : PageOption) :
    getPageSize ctx option
      = ((pageSizeParam ctx option.DefaultPageSize).1,
         NumError.toError (pageSizeParam ctx option.DefaultPageSize).2) := by
  unfold getPageSize pageSizeParam
  rcases ctx.GetParam "pagesize" with ⟨v, b⟩
  cases b
  · rcases ctx.GetParam "page_size" with ⟨v2, b2⟩
    cases b2 <;> rfl
  · rfl

/-- C8: for every request and every valid page option (default `D`, maximum `M`),
`GetParamPage` returns `(0, 0, ErrInvalidParam)` exactly when the page parameter fails to
parse or is not positive, or the page size fails to parse, is not positive or exceeds `M`,
and returns `(p, pageSize, nil)` otherwise, `p` being the value of "p" (1 if absent) and
`pageSize` the value of "pagesize", else of "page_size", else `D`; so a successful result
has `p ≥ 1` and `1 ≤ pageSize ≤ M`. -/
theorem GetParamPage_spec (ctx : Context) (opt : List PageOption) (D M : Int)
    (hopt : getPageOption opt = .ok { DefaultPageSize := D, MaxPageSize := M }) :
    ctx.GetParamPage opt
      = .ok (if (pageParam ctx).2.isSome ∨ (pageParam ctx).1 ≤ 0 ∨
                (pageSizeParam ctx D).2.isSome ∨ (pageSizeParam ctx D).1 ≤ 0 ∨
                (pageSizeParam ctx D).1 > M
             then (0, 0, some (.actionError ErrInvalidParam))
             else ((pageParam ctx).1, (pageSizeParam ctx D).1, none)) ∧
    (∀ p pageSize : Int, ctx.GetParamPage opt = .ok (p, pageSize, none) →
      1 ≤ p ∧ 1 ≤ pageSize ∧ pageSize ≤ M) := by
  have hmain : ctx.GetParamPage opt
      = .ok (if (pageParam ctx).2.isSome ∨ (pageParam ctx).1 ≤ 0 ∨
                (pageSizeParam ctx D).2.isSome ∨ (pageSizeParam ctx D).1 ≤ 0 ∨
                (pageSizeParam ctx D).1 > M
             then (0, 0, some (.actionError ErrInvalidParam))
             else ((pageParam ctx).1, (pageSizeParam ctx D).1, none)) := by
    unfold Context.GetParamPage
    rw [GetDefaultParamInt64_p]
    simp only [toError_isSome, hopt, getPageSize_eq]
    by_cases h1 : (pageParam ctx).2.isSome = true ∨ (pageParam ctx).1 ≤ 0
    · rw [if_pos h1, if_pos (by tauto)]
    · rw [if_neg h1]
      by_cases h2 : (pageSizeParam ctx D).2.isSome = true ∨ (pageSizeParam ctx D).1 ≤ 0 ∨
          (pageSizeParam ctx D).1 > M
      · rw [if_pos h2, if_pos (by tauto)]
      · rw [if_neg h2, if_neg (by tauto)]
  refine ⟨hmain, ?_⟩
  intro p pageSize hres
  rw [hmain] at hres
  split at hres
  · simp at hres
  · rename_i hgood
    simp only [Except.ok.injEq, Prod.mk.injEq, and_true] at hres
    obtain ⟨hp, hs⟩ := hres
    subst hp hs
    push_neg at hgood
    omega

/-- C8 at concrete requests with the default option (default 20, maximum 100): `p=0`,
`p=-5`, `page_size=0` and `page_size=101` are rejected; `p=2` with `page_size=100` is
accepted; and a request without parameters gets page 1 with page size 20. -/
theorem GetParamPage_spec_witness :
    getPageOption [] = .ok { DefaultPageSize := 20, MaxPageSize := 100 } ∧
    (Context.ofQuery [("p", "0")]).GetParamPage []
      = .ok (0, 0, some (.actionError ErrInvalidParam)) ∧
    (Context.ofQuery [("p", "-5")]).GetParamPage []
      = .ok (0, 0, some (.actionError ErrInvalidParam)) ∧
    (Context.ofQuery [("page_size", "0")]).GetParamPage []
      = .ok (0, 0, some (.actionError ErrInvalidParam)) ∧
    (Context.ofQuery [("page_size", "101")]).GetParamPage []
      = .ok (0, 0, some (.actionError ErrInvalidParam)) ∧
    (Context.ofQuery [("p", "2"), ("page_size", "100")]).GetParamPage [] = .ok (2, 100, none) ∧
    (Context.ofQuery []).GetParamPage [] = .ok (1, 20, none) :=
  ⟨rfl,
   (GetParamPage_spec (Context.ofQuery [("p", "0")]) [] 20 100 rfl).1.trans rfl,
   (GetParamPage_spec (Context.ofQuery [("p", "-5")]) [] 20 100 rfl).1.trans rfl,
   (GetParamPage_spec (Context.ofQuery [("page_size", "0")]) [] 20 100 rfl).1.trans rfl,
   (GetParamPage_spec (Context.ofQuery [("page_size", "101")]) [] 20 100 rfl).1.trans rfl,
   (GetParamPage_spec (Context.ofQuery [("p", "2"), ("page_size", "100")]) [] 20 100 rfl).1.trans
     rfl,
   (GetParamPage_spec (Context.ofQuery []) [] 20 100 rfl).1.trans rfl⟩

/-- On elements that are empty or plain, the element pass of a rooted path keeps the plain
ones in order. -/
theorem cleanElems_plain (L out : List (List Char))
    (hL : ∀ e ∈ L, e = [] ∨ PlainSegment e) :
    cleanElems true L out = out.reverse ++ L.filter (fun e => e ≠ []) := by
  induction L generalizing out with
  | nil => simp [cleanElems]
  | cons e es ih =>
    have hes : ∀ x ∈ es, x = [] ∨ PlainSegment x := fun x hx => hL x (List.mem_cons_of_mem _ hx)
    rcases hL e (List.mem_cons_self _ _) with he | he
    · subst he
      simp [cleanElems, ih out hes]
    · obtain ⟨h1, -, h3, h4⟩ := he
      simp only [cleanElems, h1, h3, h4, false_or, if_false]
      rw [ih _ hes]
      simp [h1]

/-- Joining one more element after a non-empty list of elements. -/
theorem intercalate_concat (sep : List Char) (xs : List (List Char)) (hxs : xs ≠ [])
    (s : List Char) :
    List.intercalate sep (xs ++ [s]) = List.intercalate sep xs ++ sep ++ s := by
  induction xs with
  | nil => exact absurd rfl hxs
  | cons a t ih =>
    cases t with
    | nil => simp [List.intercalate]
    | cons b r =>
      have := ih (by simp)
      simp only [List.intercalate, List.cons_append, List.intersperse_cons_cons,
        List.flatten_cons, List.append_assoc] at this ⊢
      rw [this]

/-- Cleaning a rooted path of plain segments followed by a slash and one more plain
segment. -/
theorem clean_join_plain (segs : List (List Char)) (s : List Char)
    (hsegs : ∀ e ∈ segs, PlainSegment e) (hs : PlainSegment s) :
    cleanElems true (List.splitOn '/' (('/' :: List.intercalate ['/'] segs) ++ '/' :: s)) []
      = segs ++ [s] := by
  have hsplit : ∃ L : List (List Char),
      List.splitOn '/' (('/' :: List.intercalate ['/'] segs) ++ '/' :: s) = L ∧
      (∀ e ∈ L, e = [] ∨ PlainSegment e) ∧ L.filter (fun e => e ≠ []) = segs ++ [s] := by
    cases segs with
    | nil =>
      refine ⟨[[], [], s], ?_, ?_, ?_⟩
      · have h := List.splitOn_intercalate [[], [], s] '/'
          (by
            intro l hl
            simp only [List.mem_cons, List.mem_singleton, List.not_mem_nil, or_false] at hl
            rcases hl with rfl | rfl | rfl
            · simp
            · simp
            · exact hs.2.1) (by simp)
        simpa [List.intercalate] using h
      · intro e he
        simp only [List.mem_cons, List.mem_singleton, List.not_mem_nil, or_false] at he
        rcases he with rfl | rfl | rfl
        · exact Or.inl rfl
        · exact Or.inl rfl
        · exact Or.inr hs
      · simp [hs.1]
    | cons a rest =>
      refine ⟨[] :: (a :: rest) ++ [s], ?_, ?_, ?_⟩
      · have h := List.splitOn_intercalate ([] :: (a :: rest) ++ [s]) '/'
          (by
            intro l hl
            simp only [List.cons_append, List.mem_cons, List.mem_append, List.mem_singleton,
              List.not_mem_nil, or_false] at hl
            rcases hl with rfl | rfl | hl | rfl
            · simp
            · exact (hsegs _ (List.mem_cons_self _ _)).2.1
            · exact (hsegs _ (List.mem_cons_of_mem _ hl)).2.1
            · exact hs.2.1) (by simp)
        rw [← h]
        congr 1
        have h2 := intercalate_concat ['/'] ([] :: a :: rest) (by simp) s
        simp only [List.cons_append] at h2 ⊢
        rw [h2]
        simp [List.intercalate]
      · intro e he
        simp only [List.cons_append, List.mem_cons, List.mem_append, List.mem_singleton,
          List.not_mem_nil, or_false] at he
        rcases he with rfl | rfl | he | rfl
        · exact Or.inl rfl
        · exact Or.inr (hsegs _ (List.mem_cons_self _ _))
        · exact Or.inr (hsegs _ (List.mem_cons_of_mem _ he))
        · exact Or.inr hs
      · have hne : ∀ e ∈ a :: rest, e ≠ [] := fun e he => (hsegs e he).1
        simp only [List.cons_append, ne_eq, not_true_eq_false, decide_False, Bool.false_eq_true,
          not_false_eq_true, List.filter_cons_of_neg]
        rw [← List.cons_append, List.filter_append]
        rw [List.filter_eq_self.mpr (by simpa using hne)]
        simp [hs.1]
  obtain ⟨L, hL, hplain, hfilter⟩ := hsplit
  rw [hL, cleanElems_plain L [] hplain, hfilter]
  rfl


/-- The router's join of a rooted path of plain segments with one more plain segment. -/
theorem joinPaths_plain (segs : List (List Char)) (s : String)
    (hsegs : ∀ e ∈ segs, PlainSegment e) (hs : PlainSegment s.data) :
    joinPaths (String.mk ('/' :: List.intercalate ['/'] segs)) s
      = String.mk ('/' :: List.intercalate ['/'] (segs ++ [s.data])) := by
  have hne : s ≠ "" := by
    intro h
    subst h
    exact hs.1 rfl
  have hdata : s.data ≠ [] := hs.1
  have hlast : s.data.getLast? ≠ some '/' := by
    intro h
    exact hs.2.1 (List.mem_of_mem_getLast? h)
  have hjoin : pathJoin [String.mk ('/' :: List.intercalate ['/'] segs), s]
      = String.mk ('/' :: List.intercalate ['/'] (segs ++ [s.data])) := by
    unfold pathJoin
    simp only [List.all_cons, List.all_nil, Bool.and_true, List.foldl_cons, List.foldl_nil]
    simp only [ne_eq, not_true_eq_false, reduceCtorEq, not_false_eq_true, or_true, false_or,
      if_true, if_false, List.nil_append, decide_False, Bool.false_and, Bool.false_eq_true,
      true_or, List.cons_append, List.append_assoc, List.singleton_append]
    unfold pathClean
    simp only [decide_True, if_true]
    have h := clean_join_plain segs s.data hsegs hs
    simp only [List.cons_append] at h
    rw [h]
  unfold joinPaths
  rw [if_neg hne, hjoin, if_neg (by tauto)]

/-- Joining plain names one after the other. -/
theorem foldl_joinPaths_plain (names : List String) (segs : List (List Char))
    (hsegs : ∀ e ∈ segs, PlainSegment e) (hn : ∀ n ∈ names, PlainSegment n.data) :
    names.foldl joinPaths (String.mk ('/' :: List.intercalate ['/'] segs))
      = String.mk ('/' :: List.intercalate ['/'] (segs ++ names.map String.data)) := by
  induction names generalizing segs with
  | nil => simp
  | cons n t ih =>
    rw [List.foldl_cons, joinPaths_plain segs n hsegs (hn n (List.mem_cons_self _ _))]
    rw [ih (segs ++ [n.data])
      (by
        intro e he
        rcases List.mem_append.mp he with he | he
        · exact hsegs e he
        · rw [List.mem_singleton.mp he]
          exact hn n (List.mem_cons_self _ _))
      (fun x hx => hn x (List.mem_cons_of_mem _ hx))]
    simp

/-- For plain group names and a plain key, the path of a route on the empty router is a slash
followed by the names and the key separated by slashes. -/
theorem routePath_plain (names : List String) (key : String)
    (hn : ∀ n ∈ names, PlainSegment n.data) (hk : PlainSegment key.data) :
    routePath "/" names key
      = String.mk ('/' :: List.intercalate ['/'] ((names ++ [key]).map String.data)) := by
  unfold routePath
  have h := foldl_joinPaths_plain names [] (by simp) hn
  simp only [List.intercalate, List.intersperse_nil, List.flatten_nil, List.nil_append] at h
  have h0 : ("/" : String) = String.mk ['/'] := rfl
  rw [h0, h]
  have h2 := joinPaths_plain (names.map String.data) key
    (by
      intro e he
      obtain ⟨n, hnm, rfl⟩ := List.mem_map.mp he
      exact hn n hnm) hk
  simp only [List.intercalate] at h2
  rw [h2]
  simp [List.intercalate]

/-- C13: `getPageOption` without an option yields default 20 and maximum 100; with one
option, a `DefaultPageSize` of 0 standing for 20 and a `MaxPageSize` of 0 for 100, it panics
exactly when the default is negative or the maximum is less than the default, and otherwise
returns the option with those substitutions made; with more than one option it panics. -/
theorem getPageOption_spec (o : PageOption) :
    getPageOption [] = .ok { DefaultPageSize := 20, MaxPageSize := 100 } ∧
    getPageOption [o]
      = (if (if o.DefaultPageSize = 0 then 20 else o.DefaultPageSize) < 0 ∨
            (if o.MaxPageSize = 0 then 100 else o.MaxPageSize)
              < (if o.DefaultPageSize = 0 then 20 else o.DefaultPageSize)
         then .error "invalid page option"
         else .ok { DefaultPageSize := if o.DefaultPageSize = 0 then 20 else o.DefaultPageSize,
                    MaxPageSize := if o.MaxPageSize = 0 then 100 else o.MaxPageSize }) ∧
    ((∃ msg, getPageOption [o] = .error msg) ↔
      (if o.DefaultPageSize = 0 then 20 else o.DefaultPageSize) < 0 ∨
      (if o.MaxPageSize = 0 then 100 else o.MaxPageSize)
        < (if o.DefaultPageSize = 0 then 20 else o.DefaultPageSize)) ∧
    (∀ (o1 o2 : PageOption) (rest : List PageOption),
      getPageOption (o1 :: o2 :: rest) = .error "invalid page option") := by
  have hone : getPageOption [o]
      = (if (if o.DefaultPageSize = 0 then 20 else o.DefaultPageSize) < 0 ∨
            (if o.MaxPageSize = 0 then 100 else o.MaxPageSize)
              < (if o.DefaultPageSize = 0 then 20 else o.DefaultPageSize)
         then .error "invalid page option"
         else .ok { DefaultPageSize := if o.DefaultPageSize = 0 then 20 else o.DefaultPageSize,
                    MaxPageSize := if o.MaxPageSize = 0 then 100 else o.MaxPageSize }) := by
    obtain ⟨D, M⟩ := o
    unfold getPageOption
    by_cases hD : D = 0 <;> by_cases hM : M = 0 <;>
      simp [hD, hM, DefaultPageSize, MaxPageSize]
  refine ⟨rfl, hone, ?_, fun _ _ _ => rfl⟩
  rw [hone]
  constructor
  · rintro ⟨msg, h⟩
    by_contra hc
    rw [if_neg hc] at h
    cases h
  · intro hc
    exact ⟨_, if_pos hc⟩

/-- C13 at concrete options: all-zero fields give (20, 100); default 50 keeps the maximum
100; a negative default, a default above the substituted maximum 100, and a maximum below
the substituted default 20 are rejected. -/
theorem getPageOption_spec_witness :
    getPageOption [{ DefaultPageSize := 0, MaxPageSize := 0 }]
      = .ok { DefaultPageSize := 20, MaxPageSize := 100 } ∧
    getPageOption [{ DefaultPageSize := 50, MaxPageSize := 0 }]
      = .ok { DefaultPageSize := 50, MaxPageSize := 100 } ∧
    getPageOption [{ DefaultPageSize := -1, MaxPageSize := 0 }] = .error "invalid page option" ∧
    getPageOption [{ DefaultPageSize := 200, MaxPageSize := 0 }] = .error "invalid page option" ∧
    getPageOption [{ DefaultPageSize := 0, MaxPageSize := 10 }] = .error "invalid page option" :=
  ⟨(getPageOption_spec { DefaultPageSize := 0, MaxPageSize := 0 }).2.1.trans rfl,
   (getPageOption_spec { DefaultPageSize := 50, MaxPageSize := 0 }).2.1.trans rfl,
   (getPageOption_spec { DefaultPageSize := -1, MaxPageSize := 0 }).2.1.trans rfl,
   (getPageOption_spec { DefaultPageSize := 200, MaxPageSize := 0 }).2.1.trans rfl,
   (getPageOption_spec { DefaultPageSize := 0, MaxPageSize := 10 }).2.1.trans rfl⟩

/-- The response part of an aborted JSON answer: one envelope after what was rendered. -/
theorem abortError_rendered (p : Process) (c : GinContext) (e : GoError) :
    ∃ (status : Int) (env : basicResponse),
      (abortError p c e).rendered = c.rendered ++ [(status, env)] ∧
      (abortError p c e).aborted = true := by
  cases e <;> exact ⟨_, _, rfl, rfl⟩

/-- C14: in one invocation of a handler built by `NewAction`, the wrapper renders exactly
one envelope after what the gin context held before its own write (the incoming context
when login is required, the context left by the business function otherwise), except when
the business function is called and returns `ErrRawResponse`: then the wrapper leaves the
context exactly as the function left it, rendering nothing and aborting nothing. -/
theorem wrapper_writes_once (method : Method) (f : ActionFunc) (loginRequired : Bool)
    (p : Process) (c : GinContext) :
    (loginRequired = false → (f (Context.new c)).err = some ErrRawResponse →
      (NewAction method f loginRequired).GetHandler p c = (f (Context.new c)).C) ∧
    (loginRequired = true →
      ∃ (status : Int) (env : basicResponse),
        ((NewAction method f loginRequired).GetHandler p c).rendered
          = c.rendered ++ [(status, env)]) ∧
    (loginRequired = false → (f (Context.new c)).err ≠ some ErrRawResponse →
      ∃ (status : Int) (env : basicResponse),
        ((NewAction method f loginRequired).GetHandler p c).rendered
          = (f (Context.new c)).C.rendered ++ [(status, env)]) := by
  refine ⟨?_, ?_, ?_⟩
  · intro hl herr
    subst hl
    simp [NewAction, Action.GetHandler, NewAction.run, herr, ErrRawResponse]
  · intro hl
    subst hl
    obtain ⟨status, env, h, -⟩ := abortError_rendered p c (.actionError ErrLoginRequired)
    exact ⟨status, env, h⟩
  · intro hl herr
    subst hl
    cases hres : (f (Context.new c)).err with
    | none =>
      exact ⟨200, { Code := 0, Info := (f (Context.new c)).resp }, by
        simp [NewAction, Action.GetHandler, NewAction.run, hres, GinContext.JSON, StatusOK,
          CodeSuccess]⟩
    | some e =>
      have hne : e ≠ .rawResponse := by
        intro h
        exact herr (by rw [hres, h]; rfl)
      obtain ⟨status, env, h, -⟩ := abortError_rendered p (f (Context.new c)).C e
      refine ⟨status, env, ?_⟩
      rw [← h]
      simp only [NewAction, Action.GetHandler, NewAction.run, hres]
      cases e with
      | rawResponse => exact absurd rfl hne
      | _ => rfl

/-- C14 at concrete actions: a function that writes its own response and returns
`ErrRawResponse` leaves one rendered body, its own, and no abort; a function that answers
"pong" gets one envelope from the wrapper. -/
theorem wrapper_writes_once_witness :
    (rawWriter (Context.new (Context.ofQuery []).C)).err = some ErrRawResponse ∧
    (NewAction GET rawWriter false).GetHandler (Process.init id) (Context.ofQuery []).C
      = (rawWriter (Context.new (Context.ofQuery []).C)).C ∧
    ((NewAction GET rawWriter false).GetHandler (Process.init id) (Context.ofQuery []).C).rendered
      = [(200, { Code := 0, Info := .str "raw" })] ∧
    ((NewAction GET rawWriter false).GetHandler (Process.init id) (Context.ofQuery []).C).aborted
      = false ∧
    ((NewAction GET answerPong false).GetHandler (Process.init id)
        (Context.ofQuery []).C).rendered.length = 1 :=
  ⟨rfl,
   (wrapper_writes_once GET rawWriter false (Process.init id) (Context.ofQuery []).C).1 rfl rfl,
   rfl, rfl, rfl⟩

/-- C15 fails on the code: a handler built with `loginRequired = true` never calls the
business function, on any request; the action answering "pong" is answered with 403 and
the login-required envelope when built with `loginRequired = true`, and with 200 "pong"
when built with `loginRequired = false`. -/
theorem loginRequired_never_invokes :
    (∀ (f : ActionFunc) (p : Process) (c : GinContext),
      (NewAction.run f true p c).invoked = false) ∧
    (¬ ∃ (f : ActionFunc) (p : Process) (c : GinContext),
      (NewAction.run f true p c).invoked = true) ∧
    ((NewAction GET answerPong true).GetHandler (Process.init id) (Context.ofQuery []).C).rendered
      = [(403, { Code := 100010006, Info := .str "请先登录" })] ∧
    ((NewAction GET answerPong false).GetHandler (Process.init id) (Context.ofQuery []).C).rendered
      = [(200, { Code := 0, Info := .str "pong" })] := by
  refine ⟨fun _ _ _ => rfl, ?_, rfl, rfl⟩
  rintro ⟨f, p, c, h⟩
  simp [NewAction.run] at h

/-- C16: for a `LoggerError`, `ErrorInfo()` is the title alone in release mode, and in every
other mode the text of `Error()`: the title alone without an underlying error, and the
title, a colon and a space, and the text of the underlying error otherwise. `StatusCode()`
and `ErrorCode()` are the status and code given to `NewLoggerError`, whatever the mode. -/
theorem LoggerError_ErrorInfo (p : Process) (e : LoggerError GoError)
    (status code : Int) (msg : String) :
    e.ErrorInfo p
      = (if Mode p = "release" then e.Title
         else match e.toContextError.err with
           | none => e.Title
           | some detail => e.Title ++ ": " ++ detail.Error p.Quote) ∧
    e.Error p.Quote
      = (match e.toContextError.err with
         | none => e.Title
         | some detail => e.Title ++ ": " ++ detail.Error p.Quote) ∧
    (NewLoggerError status code msg).ErrorInfo (SetMode "release" p) = msg ∧
    (NewLoggerError status code msg).ErrorInfo (SetMode "debug" p) = msg ∧
    (NewLoggerError status code msg).StatusCode = status ∧
    (NewLoggerError status code msg).ErrorCode = code ∧
    (GoError.asResponseError p (.loggerError (NewLoggerError status code msg))).map
        (fun v => (v.StatusCode, v.ErrorCode)) = some (status, code) := by
  have herr : e.Error p.Quote
      = (match e.toContextError.err with
         | none => e.Title
         | some detail => e.Title ++ ": " ++ detail.Error p.Quote) := by
    obtain ⟨s, c, ⟨title, err⟩⟩ := e
    cases err <;> simp [LoggerError.Error, GoError.Error, LoggerError.Title]
  refine ⟨?_, herr, ?_, ?_, rfl, rfl, rfl⟩
  · unfold LoggerError.ErrorInfo
    rw [herr]
    rfl
  · simp [LoggerError.ErrorInfo, Mode, SetMode, ginSetMode, ReleaseMode, NewLoggerError,
      LoggerError.Title, DebugMode, TestMode]
  · simp [LoggerError.ErrorInfo, Mode, SetMode, ginSetMode, ReleaseMode, NewLoggerError,
      LoggerError.Title, DebugMode, TestMode, LoggerError.Error, GoError.Error]

/-- A string has at least as many bytes as characters. -/
theorem length_le_utf8ByteSize (s : String) : s.data.length ≤ s.utf8ByteSize := by
  obtain ⟨l⟩ := s
  show l.length ≤ String.utf8ByteSize.go l
  induction l with
  | nil => simp [String.utf8ByteSize.go]
  | cons c cs ih =>
    have := Char.utf8Size_pos c
    simp only [List.length_cons, String.utf8ByteSize.go]
    omega

/-- The value of a decimal digit is at most 9. -/
theorem digit_le_nine (c : Char) (h : c.isDigit = true) : c.toNat - 48 ≤ 9 := by
  simp only [Char.isDigit, Bool.and_eq_true, decide_eq_true_eq] at h
  have h2 : c.val.toNat ≤ 57 := h.2
  show c.val.toNat - 48 ≤ 9
  omega

/-- On at most 18 digits the fast loop of `Atoi` and the checked loop of `ParseUint` agree. -/
theorem atoiLoop_parseUintLoop (cs : List Char) (n k : Nat) (hn : n < 10 ^ k)
    (hk : k + cs.length ≤ 18) :
    match atoiLoop cs n with
    | none => parseUintLoop cs n = (0, some .ErrSyntax)
    | some m => parseUintLoop cs n = (m, none) ∧ m < 10 ^ 18 := by
  induction cs generalizing n k with
  | nil =>
    simp only [atoiLoop, parseUintLoop, true_and]
    calc n < 10 ^ k := hn
      _ ≤ 10 ^ 18 := Nat.pow_le_pow_right (by norm_num) (by simpa using hk)
  | cons c t ih =>
    simp only [List.length_cons] at hk
    by_cases hd : c.isDigit = true
    · have hd9 := digit_le_nine c hd
      have hk17 : k ≤ 17 := by omega
      have hpow : 10 ^ k ≤ 10 ^ 17 := Nat.pow_le_pow_right (by norm_num) hk17
      have hn1 : n * 10 + (c.toNat - 48) < 10 ^ (k + 1) := by
        rw [pow_succ]
        omega
      have hstep := ih (n * 10 + (c.toNat - 48)) (k + 1) hn1 (by omega)
      have hpow1 : 10 ^ (k + 1) ≤ 10 ^ 18 := Nat.pow_le_pow_right (by norm_num) (by omega)
      have hcut : ¬ n ≥ maxUint64 / 10 + 1 := by
        have : maxUint64 / 10 + 1 = 1844674407370955162 := by decide
        rw [this]
        have : (10 : Nat) ^ 17 = 100000000000000000 := by norm_num
        omega
      have hmax : ¬ n * 10 + (c.toNat - 48) > maxUint64 := by
        have : maxUint64 = 18446744073709551615 := by decide
        rw [this]
        have : (10 : Nat) ^ 18 = 1000000000000000000 := by norm_num
        omega
      simp only [atoiLoop, parseUintLoop, hd, if_true, hcut, if_false, hmax]
      exact hstep
    · simp [atoiLoop, parseUintLoop, hd]

/-- `Atoi` computes what `ParseInt` computes; only the function name in the error differs. -/
theorem Atoi_eq_ParseInt (s : String) :
    Atoi s = ((ParseInt s).1, (ParseInt s).2.map fun nerr => { nerr with Func := "Atoi" }) := by
  unfold Atoi
  by_cases hfast : 0 < s.utf8ByteSize ∧ s.utf8ByteSize < 19
  · simp only [hfast, and_self, if_true]
    have hlen : s.data.length ≤ 18 := by
      have := length_le_utf8ByteSize s
      omega
    unfold ParseInt
    cases hdata : s.data with
    | nil => rfl
    | cons c cs =>
      rw [hdata] at hlen
      simp only [List.length_cons] at hlen
      by_cases hsign : c = '-' ∨ c = '+'
      · have hsign2 : c = '+' ∨ c = '-' := hsign.symm
        simp only [hsign, hsign2, if_true, true_and]
        cases cs with
        | nil => simp [ParseUint]
        | cons d ds =>
          have hloop := atoiLoop_parseUintLoop (d :: ds) 0 0 (by norm_num)
            (by simp only [List.length_cons] at hlen ⊢; omega)
          simp only [ParseUint, reduceCtorEq, if_false]
          cases hres : atoiLoop (d :: ds) 0 with
          | none =>
            rw [hres] at hloop
            simp [hloop]
          | some m =>
            rw [hres] at hloop
            obtain ⟨hp, hm⟩ := hloop
            have hm18 : m < 1000000000000000000 := by norm_num at hm; exact hm
            have h63 : ¬ 9223372036854775808 ≤ m := by omega
            have h63b : ¬ 9223372036854775808 < m := by omega
            simp [hp, h63, h63b]
      · have hsign2 : ¬ (c = '+' ∨ c = '-') := fun h => hsign h.symm
        have hneg : c ≠ '-' := fun h => hsign (Or.inl h)
        simp only [hsign, hsign2, if_false, false_and]
        have hloop := atoiLoop_parseUintLoop (c :: cs) 0 0 (by norm_num)
          (by simp only [List.length_cons] at hlen ⊢; omega)
        simp only [ParseUint]
        cases hres : atoiLoop (c :: cs) 0 with
        | none =>
          rw [hres] at hloop
          simp [hloop]
        | some m =>
          rw [hres] at hloop
          obtain ⟨hp, hm⟩ := hloop
          have hm18 : m < 1000000000000000000 := by norm_num at hm; exact hm
          have h63 : ¬ 9223372036854775808 ≤ m := by omega
          simp [hp, h63, hneg]
  · simp only [hfast, if_false]

/-- `GetParam` reads the parameter value: found with its value, or reported absent. -/
theorem GetParam_eq (ctx : Context) (key : String) :
    ctx.GetParam key
      = match paramValue ctx key with
        | some v => (v, true)
        | none => ("", false) := by
  unfold Context.GetParam paramValue GinContext.GetQuery GinContext.GetPostForm
  cases ctx.C.query.lookup key with
  | some v => rfl
  | none =>
    cases ctx.C.postForm.lookup key <;> rfl

/-- C12: the integer accessors read the value of the key from the query string if it is
present there, otherwise from the form body. When the key is absent from both,
`GetParamInt` and `GetParamInt64` return `(0, ErrEmptyValue)` and the default variants
return `(d, nil)`; when it is present, all four return what the base-10 parser returns on
the found value (`strconv.Atoi` for `int`, `strconv.ParseInt` for `int64`, which compute the
same value and fail on the same inputs), value and error. -/
theorem integer_params (ctx : Context) (key : String) (d : Int) :
    ctx.GetParamInt key
      = (match paramValue ctx key with
         | none => (0, some ErrEmptyValue)
         | some v => ((Atoi v).1, NumError.toError (Atoi v).2)) ∧
    ctx.GetParamInt64 key
      = (match paramValue ctx key with
         | none => (0, some ErrEmptyValue)
         | some v => ((ParseInt v).1, NumError.toError (ParseInt v).2)) ∧
    ctx.GetDefaultParamInt key d
      = (match paramValue ctx key with
         | none => (d, none)
         | some v => ((Atoi v).1, NumError.toError (Atoi v).2)) ∧
    ctx.GetDefaultParamInt64 key d
      = (match paramValue ctx key with
         | none => (d, none)
         | some v => ((ParseInt v).1, NumError.toError (ParseInt v).2)) ∧
    (∀ v : String, (Atoi v).1 = (ParseInt v).1 ∧ (Atoi v).2.isSome = (ParseInt v).2.isSome) := by
  refine ⟨?_, ?_, ?_, ?_, ?_⟩
  · unfold Context.GetParamInt
    rw [GetParam_eq]
    cases paramValue ctx key <;> rfl
  · unfold Context.GetParamInt64
    rw [GetParam_eq]
    cases paramValue ctx key <;> rfl
  · unfold Context.GetDefaultParamInt
    rw [GetParam_eq]
    cases paramValue ctx key <;> rfl
  · unfold Context.GetDefaultParamInt64
    rw [GetParam_eq]
    cases paramValue ctx key <;> rfl
  · intro v
    rw [Atoi_eq_ParseInt]
    exact ⟨rfl, by simp⟩

/-- C12 at concrete requests: `GetDefaultParamInt64 "p" 1` is 1 when `p` is absent and the
parsed value when it is present; the query string wins over the form body, and the form
body is read when the query string lacks the key; an absent key is an empty value for the
accessors without default; an unparsable value gives the parser's error. -/
theorem integer_params_witness :
    (Context.ofRequest [] []).GetDefaultParamInt64 "p" 1 = (1, none) ∧
    (Context.ofRequest [("p", "7")] []).GetDefaultParamInt64 "p" 1 = (7, none) ∧
    (Context.ofRequest [("p", "3")] [("p", "9")]).GetParamInt64 "p" = (3, none) ∧
    (Context.ofRequest [("q", "3")] [("p", "-9")]).GetParamInt "p" = (-9, none) ∧
    (Context.ofRequest [] []).GetParamInt "p" = (0, some ErrEmptyValue) ∧
    (Context.ofRequest [] []).GetParamInt64 "p" = (0, some ErrEmptyValue) ∧
    (Context.ofRequest [] []).GetDefaultParamInt "p" 5 = (5, none) ∧
    (Context.ofRequest [("p", "x1")] []).GetParamInt64 "p"
      = (0, some (.numError { Func := "ParseInt", Num := "x1", Err := .ErrSyntax })) ∧
    (Context.ofRequest [("p", "x1")] []).GetDefaultParamInt "p" 5
      = (0, some (.numError { Func := "Atoi", Num := "x1", Err := .ErrSyntax })) :=
  ⟨(integer_params (Context.ofRequest [] []) "p" 1).2.2.2.1.trans rfl,
   (integer_params (Context.ofRequest [("p", "7")] []) "p" 1).2.2.2.1.trans rfl,
   (integer_params (Context.ofRequest [("p", "3")] [("p", "9")]) "p" 0).2.1.trans rfl,
   (integer_params (Context.ofRequest [("q", "3")] [("p", "-9")]) "p" 0).1.trans rfl,
   (integer_params (Context.ofRequest [] []) "p" 0).1.trans rfl,
   (integer_params (Context.ofRequest [] []) "p" 0).2.1.trans rfl,
   (integer_params (Context.ofRequest [] []) "p" 5).2.2.1.trans rfl,
   (integer_params (Context.ofRequest [("p", "x1")] []) "p" 0).2.1.trans rfl,
   (integer_params (Context.ofRequest [("p", "x1")] []) "p" 5).2.2.1.trans rfl⟩

/-- The result of `TrimSpace` has no leading and no trailing white space. -/
theorem TrimSpace_trimmed (s : String) : Trimmed (TrimSpace s) := by
  have hhead := List.head?_dropWhile_not isSpace s.data
  have hlast := List.head?_dropWhile_not isSpace (s.data.dropWhile isSpace).reverse
  have hpre : ((s.data.dropWhile isSpace).reverse.dropWhile isSpace).reverse
      <+: s.data.dropWhile isSpace := by
    rw [← List.reverse_reverse (s.data.dropWhile isSpace)]
    rw [List.reverse_prefix, List.reverse_reverse]
    exact List.dropWhile_suffix isSpace
  constructor
  · intro c hc
    simp only [TrimSpace] at hc
    obtain ⟨t, ht⟩ := hpre
    have hne : ((s.data.dropWhile isSpace).reverse.dropWhile isSpace).reverse ≠ [] := by
      intro h
      rw [h] at hc
      simp at hc
    rw [← ht, List.head?_append_of_ne_nil _ hne, hc] at hhead
    exact hhead
  · intro c hc
    simp only [TrimSpace, List.getLast?_reverse] at hc
    rw [hc] at hlast
    exact hlast

/-- C17, as stated, fails: on a request without the key, `GetDefaultParamString` returns
the default as it is, and the default " x " has leading and trailing white space. -/
theorem GetDefaultParamString_untrimmed :
    (Context.ofRequest [] []).GetDefaultParamString "name" " x " = " x " ∧
    ¬ Trimmed ((Context.ofRequest [] []).GetDefaultParamString "name" " x ") := by
  refine ⟨rfl, ?_⟩
  intro h
  have := h.1 ' ' rfl
  revert this
  decide

/-- C17, amended: `GetParamString key` returns `(TrimSpace v, true)` when the key is present
with value `v` (query string first, then form body) and `("", false)` when it is absent;
`GetDefaultParamString key d` returns `TrimSpace v` when the key is present and `d` itself,
untouched, when it is absent. The trimmed value has no leading or trailing white space, so
the result of `GetDefaultParamString` has none whenever the key is present or `d` has none. -/
theorem string_params (ctx : Context) (key d : String) :
    ctx.GetParamString key
      = (match paramValue ctx key with
         | some v => (TrimSpace v, true)
         | none => ("", false)) ∧
    ctx.GetDefaultParamString key d
      = (match paramValue ctx key with
         | some v => TrimSpace v
         | none => d) ∧
    Trimmed (ctx.GetParamString key).1 ∧
    ((paramValue ctx key).isSome ∨ Trimmed d → Trimmed (ctx.GetDefaultParamString key d)) := by
  have h1 : ctx.GetParamString key
      = (match paramValue ctx key with
         | some v => (TrimSpace v, true)
         | none => ("", false)) := by
    unfold Context.GetParamString
    rw [GetParam_eq]
    cases paramValue ctx key <;> rfl
  have h2 : ctx.GetDefaultParamString key d
      = (match paramValue ctx key with
         | some v => TrimSpace v
         | none => d) := by
    unfold Context.GetDefaultParamString
    rw [h1]
    cases paramValue ctx key <;> rfl
  refine ⟨h1, h2, ?_, ?_⟩
  · rw [h1]
    cases paramValue ctx key with
    | none => exact ⟨fun c hc => by simp at hc, fun c hc => by simp at hc⟩
    | some v => exact TrimSpace_trimmed v
  · intro h
    rw [h2]
    cases hv : paramValue ctx key with
    | none =>
      rw [hv] at h
      simpa using h
    | some v => exact TrimSpace_trimmed v

/-- C17, amended, at concrete requests: a value with spaces, tabs and an ideographic space
around it is trimmed; an absent key gives the empty string and `false`, and the default. -/
theorem string_params_witness :
    (Context.ofRequest [("name", " \t Ann Lee　\n")] []).GetParamString "name"
      = ("Ann Lee", true) ∧
    (Context.ofRequest [] [("name", "  bob ")]).GetDefaultParamString "name" "none" = "bob" ∧
    (Context.ofRequest [] []).GetParamString "name" = ("", false) ∧
    (Context.ofRequest [] []).GetDefaultParamString "name" "none" = "none" ∧
    Trimmed ((Context.ofRequest [] [("name", "  bob ")]).GetDefaultParamString "name" " x ") :=
  ⟨(string_params (Context.ofRequest [("name", " \t Ann Lee　\n")] []) "name" "").1.trans
     (by decide),
   (string_params (Context.ofRequest [] [("name", "  bob ")]) "name" "none").2.1.trans
     (by decide),
   (string_params (Context.ofRequest [] []) "name" "").1.trans rfl,
   (string_params (Context.ofRequest [] []) "name" "none").2.1.trans rfl,
   (string_params (Context.ofRequest [] [("name", "  bob ")]) "name" " x ").2.2.2
     (Or.inl rfl)⟩

/-- A failed parse returns the zero time. -/
theorem ParseInLocation_zero (layout : Layout) (value : String) (loc : Location)
    (err : ParseError) (t : Time) (h : ParseInLocation layout value loc = (t, some err)) :
    t = Time.zero := by
  unfold ParseInLocation at h
  cases hp : parseElems layout.elems value.data 0 (-1) (-1) with
  | none =>
    rw [hp] at h
    exact (Prod.mk.inj h).1.symm
  | some r =>
    obtain ⟨year, month, day⟩ := r
    rw [hp] at h
    simp only at h
    split_ifs at h <;>
      first
      | exact (Prod.mk.inj h).1.symm
      | exact absurd (Prod.mk.inj h).2 (by simp)

/-- The string a range accessor parses for a bound is the request value, or the default when
the parameter is absent. -/
theorem bound_eq (ctx : Context) (key dflt : String) :
    (if !(ctx.GetParam key).2 ∧ dflt ≠ "" then dflt else (ctx.GetParam key).1)
      = boundString ctx key dflt := by
  rw [GetParam_eq]
  unfold boundString
  cases paramValue ctx key with
  | some v => simp
  | none =>
    by_cases hd : dflt = ""
    · simp [hd]
    · simp [hd]

/-- The shared body of the range accessors computes the specified outcome. -/
theorem getParamRange_eq (tz : TimePackage) (ctx : Context) (layout : Layout)
    (startKey endKey ds de : String) :
    ctx.getParamRange tz layout startKey endKey ds de
      = rangeOutcome tz layout (boundString ctx startKey ds) (boundString ctx endKey de) := by
  unfold Context.getParamRange rangeOutcome
  simp only [bound_eq]
  rcases hs : ParseInLocation layout (boundString ctx startKey ds) tz.Local with ⟨t1, e1⟩
  cases e1 with
  | some err =>
    have := ParseInLocation_zero _ _ _ _ _ hs
    subst this
    rfl
  | none =>
    rcases he : ParseInLocation layout (boundString ctx endKey de) tz.Local with ⟨t2, e2⟩
    cases e2 with
    | some err =>
      have := ParseInLocation_zero _ _ _ _ _ he
      subst this
      rfl
    | none =>
      simp only [Time.Before, Time.After, gt_iff_lt]
      split <;> rfl

/-- C11: `GetParamDateRange` (parameters `start_date` / `end_date`, layout year-month-day)
and `GetParamMonthRange` (parameters `start_month` / `end_month`, layout year-month) take
for each bound the request value or, if the parameter is absent, the supplied default.
If the start string fails to parse, that error is returned, whatever the end string is;
else if the end string fails to parse, its error is returned; else `ErrInvalidDateRange` is
returned exactly when the start is strictly after the end; otherwise, equal bounds
included, both parsed dates are returned with a nil error. -/
theorem date_range (tz : TimePackage) (ctx : Context) (ds de : String) :
    ctx.GetParamDateRange tz ds de
      = rangeOutcome tz .date (boundString ctx "start_date" ds)
          (boundString ctx "end_date" de) ∧
    ctx.GetParamMonthRange tz ds de
      = rangeOutcome tz .month (boundString ctx "start_month" ds)
          (boundString ctx "end_month" de) ∧
    (∀ (layout : Layout) (s e1 e2 : String) (err : ParseError),
      (ParseInLocation layout s tz.Local).2 = some err →
      rangeOutcome tz layout s e1 = rangeOutcome tz layout s e2 ∧
      (rangeOutcome tz layout s e1).2.2 = some (.other (tz.errorText err))) ∧
    (∀ (layout : Layout) (s e : String) (start : Time) (err : ParseError),
      ParseInLocation layout s tz.Local = (start, none) →
      (ParseInLocation layout e tz.Local).2 = some err →
      (rangeOutcome tz layout s e).2.2 = some (.other (tz.errorText err))) ∧
    (∀ (layout : Layout) (s e : String) (start stop : Time),
      ParseInLocation layout s tz.Local = (start, none) →
      ParseInLocation layout e tz.Local = (stop, none) →
      rangeOutcome tz layout s e
        = (start, stop, if stop.unix < start.unix then some ErrInvalidDateRange else none)) := by
  refine ⟨getParamRange_eq _ _ _ _ _ _ _, getParamRange_eq _ _ _ _ _ _ _, ?_, ?_, ?_⟩
  · intro layout s e1 e2 err h
    unfold rangeOutcome
    rcases hs : ParseInLocation layout s tz.Local with ⟨t, e⟩
    rw [hs] at h
    simp only at h
    subst h
    exact ⟨rfl, rfl⟩
  · intro layout s e start err hs he
    unfold rangeOutcome
    rw [hs]
    rcases he2 : ParseInLocation layout e tz.Local with ⟨t, e0⟩
    rw [he2] at he
    simp only at he
    subst he
    rfl
  · intro layout s e start stop hs he
    unfold rangeOutcome
    rw [hs, he]
    by_cases h : stop.unix < start.unix <;> simp [Time.After, h]

/-- C11 at concrete requests, local zone UTC or at a fixed offset of eight hours: start
2024-02-01 with end 2024-01-01 fails with "start_date > end_date"; 2024-01-01 with
2024-02-01 succeeds with both dates; equal bounds succeed; absent parameters take the
defaults; an unparsable start is reported even if the end is unparsable too; an unparsable
end is reported after a good start; month 2024-02 with 2024-01 is an invalid range. -/
theorem date_range_witness :
    ErrInvalidDateRange.Error id = "start_date > end_date" ∧
    (Context.ofRequest [("start_date", "2024-02-01"), ("end_date", "2024-01-01")] []
        ).GetParamDateRange (fixedZone 0) "" ""
      = ({ unix := 1706745600 }, { unix := 1704067200 }, some ErrInvalidDateRange) ∧
    (Context.ofRequest [("start_date", "2024-01-01"), ("end_date", "2024-02-01")] []
        ).GetParamDateRange (fixedZone 0) "" ""
      = ({ unix := 1704067200 }, { unix := 1706745600 }, none) ∧
    (Context.ofRequest [("start_date", "2024-01-01"), ("end_date", "2024-01-01")] []
        ).GetParamDateRange (fixedZone 28800) "" ""
      = ({ unix := 1704038400 }, { unix := 1704038400 }, none) ∧
    (Context.ofRequest [] []).GetParamDateRange (fixedZone 0) "2024-01-01" "2024-01-31"
      = ({ unix := 1704067200 }, { unix := 1706659200 }, none) ∧
    (Context.ofRequest [("start_date", "01/02/2024"), ("end_date", "x")] []
        ).GetParamDateRange (fixedZone 0) "" ""
      = (Time.zero, Time.zero, some (.other "parsing time 01/02/2024")) ∧
    (Context.ofRequest [("start_date", "2024-01-01"), ("end_date", "2024-02-30")] []
        ).GetParamDateRange (fixedZone 0) "" ""
      = ({ unix := 1704067200 }, Time.zero, some (.other "parsing time 2024-02-30")) ∧
    (Context.ofRequest [("start_month", "2024-02"), ("end_month", "2024-01")] []
        ).GetParamMonthRange (fixedZone 0) "" ""
      = ({ unix := 1706745600 }, { unix := 1704067200 }, some ErrInvalidDateRange) :=
  ⟨rfl,
   (date_range (fixedZone 0)
     (Context.ofRequest [("start_date", "2024-02-01"), ("end_date", "2024-01-01")] [])
     "" "").1.trans rfl,
   (date_range (fixedZone 0)
     (Context.ofRequest [("start_date", "2024-01-01"), ("end_date", "2024-02-01")] [])
     "" "").1.trans rfl,
   (date_range (fixedZone 28800)
     (Context.ofRequest [("start_date", "2024-01-01"), ("end_date", "2024-01-01")] [])
     "" "").1.trans rfl,
   (date_range (fixedZone 0) (Context.ofRequest [] []) "2024-01-01" "2024-01-31").1.trans rfl,
   (date_range (fixedZone 0)
     (Context.ofRequest [("start_date", "01/02/2024"), ("end_date", "x")] [])
     "" "").1.trans rfl,
   (date_range (fixedZone 0)
     (Context.ofRequest [("start_date", "2024-01-01"), ("end_date", "2024-02-30")] [])
     "" "").1.trans rfl,
   (date_range (fixedZone 0)
     (Context.ofRequest [("start_month", "2024-02"), ("end_month", "2024-01")] [])
     "" "").2.1.trans rfl⟩

/-- The router's `path.Join` of a rooted base path and a non-empty relative path cleans the
two joined by a slash, and the result is rooted. -/
theorem pathJoin_rooted (t : List Char) (n : String) :
    pathJoin [String.mk ('/' :: t), n]
      = String.mk ('/' :: List.intercalate ['/']
          (cleanElems true (List.splitOn '/' ('/' :: t ++ '/' :: n.data)) [])) := by
  unfold pathJoin
  simp only [List.all_cons, List.all_nil, Bool.and_true, List.foldl_cons, List.foldl_nil]
  simp only [ne_eq, not_true_eq_false, reduceCtorEq, not_false_eq_true, or_true, false_or,
    if_true, if_false, List.nil_append, decide_False, Bool.false_and, Bool.false_eq_true,
    true_or, List.cons_append, List.append_assoc, List.singleton_append]
  unfold pathClean
  simp only [decide_True, if_true]

/-- Joining onto a rooted path gives a rooted path. -/
theorem joinPaths_rooted (t : List Char) (n : String) :
    ∃ t1 : List Char, joinPaths (String.mk ('/' :: t)) n = String.mk ('/' :: t1) := by
  unfold joinPaths
  by_cases hn : n = ""
  · exact ⟨t, by rw [if_pos hn]⟩
  · rw [if_neg hn, pathJoin_rooted]
    dsimp only
    split_ifs
    · exact ⟨_ ++ ['/'], rfl⟩
    · exact ⟨_, rfl⟩

/-- The base path of every scope opened while mounting on a rooted path is rooted. -/
theorem foldl_joinPaths_rooted (names : List String) (t : List Char) :
    ∃ t1 : List Char, names.foldl joinPaths (String.mk ('/' :: t)) = String.mk ('/' :: t1) := by
  induction names generalizing t with
  | nil => exact ⟨t, rfl⟩
  | cons n ns ih =>
    obtain ⟨t1, h1⟩ := joinPaths_rooted t n
    rw [List.foldl_cons, h1]
    exact ih t1

/-- The routes asked for by one pass of the action loop. -/
theorem mem_actionRoutes (g : RouterGroup) (name : String) (action : Action) (r : Route) :
    r ∈ actionRoutes g name action ↔
      (action.serves r.method ∧ r.path = joinPaths g.basePath name ∧
        r.handlers = g.Handlers ++ [action.GetHandler]) := by
  obtain ⟨m, pth, hs⟩ := r
  unfold actionRoutes Action.serves RouterGroup.route
  by_cases hG : Method.and action.Method GET ≠ 0 <;>
  by_cases hP : Method.and action.Method POST ≠ 0 <;>
  simp only [hG, hP, if_true, if_false, not_true_eq_false, not_false_eq_true, ne_eq,
    List.mem_append, List.mem_singleton, Route.mk.injEq, and_true, and_false, or_false,
    false_or, List.not_mem_nil, List.append_nil, List.nil_append] <;>
  tauto

/-- The routes asked for by the action loop. -/
theorem mem_flatten_actionRoutes (g : RouterGroup)
    (entries : List (Sigma fun _ : String => Action)) (r : Route) :
    r ∈ (entries.map (fun e => actionRoutes g e.1 e.2)).flatten ↔
      ∃ e ∈ entries, e.2.serves r.method ∧ r.path = joinPaths g.basePath e.1 ∧
        r.handlers = g.Handlers ++ [e.2.GetHandler] := by
  simp only [List.mem_flatten, List.mem_map, exists_exists_and_eq_and, mem_actionRoutes]

/-- Unfolding of `Registers` at a group: the route belongs to an action of the group itself,
or to a group reachable from one of its sub-handlers, seen from the scope opened for the
group. -/
theorem registers_mk (Name : String) (Middlewares : List HandlerFunc)
    (Actions : AList (fun _ : String => Action)) (SubHandlers : List Handler)
    (g : RouterGroup) (r : Route) :
    Registers (.mk Name Middlewares Actions SubHandlers) g r ↔
      (∃ e ∈ Actions.entries, e.2.serves r.method ∧
        r.path = joinPaths (g.scope Name Middlewares).basePath e.1 ∧
        r.handlers = (g.scope Name Middlewares).Handlers ++ [e.2.GetHandler]) ∨
      ∃ s ∈ SubHandlers, Registers s (g.scope Name Middlewares) r := by
  constructor
  · rintro ⟨path, G, key, action, hd, hlook, hserves, hpath, hhandlers⟩
    cases hd with
    | here =>
      left
      refine ⟨⟨key, action⟩, AList.mem_lookup_iff.mp hlook, hserves, ?_, ?_⟩
      · simpa [routePath, RouterGroup.scope] using hpath
      · simpa [middlewareChain, RouterGroup.scope, Handler.Middlewares]
          using hhandlers
    | sub hs hd1 =>
      right
      rename_i s path1
      refine ⟨s, hs, path1, G, key, action, hd1, hlook, hserves, ?_, ?_⟩
      · simpa [routePath, RouterGroup.scope, Handler.Name] using hpath
      · simpa [middlewareChain, RouterGroup.scope, Handler.Middlewares,
          List.append_assoc] using hhandlers
  · rintro (⟨e, he, hserves, hpath, hhandlers⟩ | ⟨s, hs, path, G, key, action, hd, hlook,
      hserves, hpath, hhandlers⟩)
    · obtain ⟨key, action⟩ := e
      refine ⟨[.mk Name Middlewares Actions SubHandlers], _, key, action, Descent.here _,
        AList.mem_lookup_iff.mpr he, hserves, ?_, ?_⟩
      · simpa [routePath, RouterGroup.scope, Handler.Name] using hpath
      · simpa [middlewareChain, RouterGroup.scope, Handler.Middlewares]
          using hhandlers
    · refine ⟨.mk Name Middlewares Actions SubHandlers :: path, G, key, action,
        Descent.sub hs hd, hlook, hserves, ?_, ?_⟩
      · simpa [routePath, RouterGroup.scope, Handler.Name] using hpath
      · simpa [middlewareChain, RouterGroup.scope, Handler.Middlewares,
          List.append_assoc] using hhandlers

mutual
/-- The routes asked for when a handler is mounted under a scope are exactly the routes of
the actions of the groups reachable from it. -/
theorem mem_planned (h : Handler) (g : RouterGroup) (r : Route) :
    r ∈ h.planned g ↔ Registers h g r := by
  match h with
  | .mk Name Middlewares Actions SubHandlers =>
    rw [Handler.planned, List.mem_append, mem_plannedSubs SubHandlers,
      mem_flatten_actionRoutes, registers_mk]
/-- The routes asked for when a list of sub-handlers is mounted under a scope. -/
theorem mem_plannedSubs (subs : List Handler) (g : RouterGroup) (r : Route) :
    r ∈ Handler.plannedSubs subs g ↔ ∃ s ∈ subs, Registers s g r := by
  match subs with
  | [] => simp [Handler.plannedSubs]
  | sub :: rest =>
    rw [Handler.plannedSubs, List.mem_append, mem_plannedSubs rest, mem_planned sub]
    simp only [List.mem_cons, exists_eq_or_imp]
end

/-- A computation equal to one that registers the routes registers them. -/
theorem realises_congr {f f1 : Engine → Except RouterPanic Engine} {P P1 : List Route}
    {C C1 : Prop} (hf : ∀ e, f e = f1 e) (hP : P = P1) (hC : C ↔ C1)
    (h : Realises f1 P1 C1) : Realises f P C := by
  have hfe : f = f1 := funext hf
  subst hfe
  subst hP
  have : C = C1 := propext hC
  subst this
  exact h

/-- Doing nothing registers no route. -/
theorem realises_ok : Realises (fun e => .ok e) [] True := by
  constructor
  · intro e e1 h
    cases h
    simp
  · intro e F _ _ _ _ _
    simp

/-- A route that passes the assertions, is filed under a new key and meets no path
parameter is added by the router. -/
theorem addRoute_fixed (e : Engine) (method path : String) (handlers : List HandlerFunc)
    (hroot : path.data.head? = some '/') (hmethod : method ≠ "")
    (hlen : handlers.length ≠ 0)
    (hnew : ∀ r ∈ e.routes, ¬ (r.method = method ∧ r.path = path))
    (hfix1 : hasWildcard path = false) (hfix2 : ∀ r ∈ e.routes, hasWildcard r.path = false) :
    e.addRoute method path handlers
      = .ok { e with routes := e.routes ++
                [{ method := method, path := path, handlers := handlers }] } := by
  unfold Engine.addRoute
  rw [if_neg (by simp [hroot]), if_neg hmethod, if_neg hlen, if_neg, if_neg]
  · simp only [hfix1, Bool.false_or, Bool.and_eq_true, List.any_eq_true, Bool.not_eq_true',
      not_and]
    rintro ⟨r, hr, hw⟩
    have := hfix2 r hr
    simp [this] at hw
  · simpa using hnew

/-- A route that the router adds passes the assertions and is filed under a new key. -/
theorem addRoute_ok (e e1 : Engine) (method path : String) (handlers : List HandlerFunc)
    (h : e.addRoute method path handlers = .ok e1) :
    e1 = { e with routes := e.routes ++
            [{ method := method, path := path, handlers := handlers }] } ∧
    path.data.head? = some '/' ∧ method ≠ "" ∧
    ∀ r ∈ e.routes, ¬ (r.method = method ∧ r.path = path) := by
  unfold Engine.addRoute at h
  split_ifs at h with h1 h2 h3 h4 h5
  refine ⟨?_, by simpa using h1, h2, by simpa using h4⟩
  cases h
  rfl

/-- The call `handle` registers its route. -/
theorem realises_handle (g : RouterGroup) (method relativePath : String)
    (handler : HandlerFunc) :
    Realises (g.handle method relativePath handler) [g.route method relativePath handler]
      True := by
  constructor
  · intro e e1 h
    unfold RouterGroup.handle RouterGroup.combineHandlers at h
    simp only [List.length_singleton] at h
    split_ifs at h with hlen
    obtain ⟨he1, hroot, hmethod, hnew⟩ := addRoute_ok _ _ _ _ _ h
    refine ⟨he1, ?_, ?_, trivial⟩
    · intro hnd
      rw [List.map_append, List.nodup_append]
      refine ⟨hnd, by simp, ?_⟩
      intro k hk1 hk2
      simp only [List.map_cons, List.map_nil, List.mem_singleton] at hk2
      obtain ⟨r, hr, rfl⟩ := List.mem_map.mp hk1
      simp only [Route.key, RouterGroup.route, Prod.mk.injEq] at hk2
      exact hnew r hr hk2
    · intro r hr
      rw [List.mem_singleton] at hr
      subst hr
      refine ⟨hroot, hmethod, ?_⟩
      simpa [RouterGroup.route] using hlen
  · intro e F hpre hnd hfixed hchecked _
    obtain ⟨hrooted, hmethod, hlen⟩ := hchecked _ (List.mem_singleton.mpr rfl)
    have hsub : ∀ r ∈ e.routes ++ [g.route method relativePath handler], r ∈ F :=
      fun r hr => hpre.subset hr
    have hnd1 : ((e.routes ++ [g.route method relativePath handler]).map Route.key).Nodup :=
      hnd.sublist (hpre.sublist.map _)
    rw [List.map_append, List.nodup_append] at hnd1
    have hnew : ∀ r ∈ e.routes,
        ¬ (r.method = method ∧ r.path = joinPaths g.basePath relativePath) := by
      intro r hr hk
      refine hnd1.2.2 (List.mem_map_of_mem Route.key hr) ?_
      simp [Route.key, RouterGroup.route, hk.1, hk.2]
    have hlen1 : g.Handlers.length + 1 < abortIndex := by
      simpa [RouterGroup.route] using hlen
    have hfix1 : hasWildcard (joinPaths g.basePath relativePath) = false :=
      hfixed (g.route method relativePath handler) (hsub _ (by simp))
    have hfix2 : ∀ r ∈ e.routes, hasWildcard r.path = false :=
      fun r hr => hfixed r (hsub r (by simp [hr]))
    unfold RouterGroup.handle RouterGroup.combineHandlers
    simp only [List.length_singleton, hlen1, if_true, RouterGroup.calculateAbsolutePath]
    exact addRoute_fixed e method _ _ hrooted hmethod (by simp) hnew hfix1 hfix2

/-- One computation after another registers the routes of the first followed by those of the
second. -/
theorem realises_seq {f1 f2 : Engine → Except RouterPanic Engine} {P Q : List Route}
    {C D : Prop} (h1 : Realises f1 P C) (h2 : Realises f2 Q D) :
    Realises (fun e => match f1 e with
      | .error p => .error p
      | .ok e1 => f2 e1) (P ++ Q) (C ∧ D) := by
  constructor
  · intro e e2 h
    cases hf : f1 e with
    | error p => simp [hf] at h
    | ok ea =>
      simp only [hf] at h
      obtain ⟨ha, hna, hca, hC⟩ := h1.1 e ea hf
      obtain ⟨hb, hnb, hcb, hD⟩ := h2.1 ea e2 h
      subst ha
      refine ⟨?_, ?_, ?_, hC, hD⟩
      · rw [hb]
        simp [List.append_assoc]
      · intro hnd
        have := hnb (hna hnd)
        simpa [List.append_assoc] using this
      · intro r hr
        rcases List.mem_append.mp hr with hr | hr
        · exact hca r hr
        · exact hcb r hr
  · intro e F hpre hnd hfixed hchecked hCD
    have hpre1 : e.routes ++ P <+: F := by
      refine List.IsPrefix.trans ?_ hpre
      rw [← List.append_assoc]
      exact List.prefix_append _ _
    have hf := h1.2 e F hpre1 hnd hfixed (fun r hr => hchecked r (List.mem_append.mpr (.inl hr)))
      hCD.1
    simp only [hf]
    have hpre2 : ({ e with routes := e.routes ++ P } : Engine).routes ++ Q <+: F := by
      simpa [List.append_assoc] using hpre
    have hg := h2.2 _ F hpre2 hnd hfixed
      (fun r hr => hchecked r (List.mem_append.mpr (.inr hr))) hCD.2
    rw [hg]
    simp [List.append_assoc]

/-- A computation run under a condition registers its routes when the condition holds. -/
theorem realises_if (c : Prop) [Decidable c] {f : Engine → Except RouterPanic Engine}
    {P : List Route} (h : Realises f P True) :
    Realises (fun e => if c then f e else .ok e) (if c then P else []) True := by
  by_cases hc : c
  · simp only [if_pos hc]
    exact h
  · simp only [if_neg hc]
    exact realises_ok

/-- One pass of the action loop registers the routes of the action. -/
theorem realises_mountAction (g : RouterGroup) (name : String) (action : Action) :
    Realises (fun e => mountAction g e name action) (actionRoutes g name action) True :=
  realises_congr (fun _ => rfl) rfl (by simp)
    (realises_seq
      (realises_if (Method.and action.Method GET ≠ 0)
        (realises_handle g "GET" name action.GetHandler))
      (realises_if (Method.and action.Method POST ≠ 0)
        (realises_handle g "POST" name action.GetHandler)))

/-- The action loop registers the routes of the entries it runs over, in order. -/
theorem realises_mountActions (g : RouterGroup)
    (entries : List (Sigma fun _ : String => Action)) :
    Realises (mountActions g entries)
      (entries.map (fun e => actionRoutes g e.1 e.2)).flatten True := by
  induction entries with
  | nil => exact realises_congr (fun _ => rfl) rfl Iff.rfl realises_ok
  | cons a rest ih =>
    exact realises_congr (fun _ => by rw [mountActions]) (by simp) (by simp)
      (realises_seq (realises_mountAction g a.1 a.2) ih)

/-- Opening the scope of a group and registering under it. -/
theorem realises_group (g : RouterGroup) (Name : String) (Middlewares : List HandlerFunc)
    (f : RouterGroup → Engine → Except RouterPanic Engine) (P : List Route) (C : Prop)
    (h : Realises (f (g.scope Name Middlewares)) P C) :
    Realises (fun e => match g.Group Name with
      | .error p => .error p
      | .ok g1 => f (g1.Use Middlewares) e) P (g.Handlers.length < abortIndex ∧ C) := by
  by_cases hlen : g.Handlers.length < abortIndex
  · have hG : g.Group Name
        = .ok { Handlers := g.Handlers, basePath := joinPaths g.basePath Name } := by
      simp [RouterGroup.Group, RouterGroup.combineHandlers, hlen,
        RouterGroup.calculateAbsolutePath]
    refine realises_congr ?_ rfl (by simp [hlen]) h
    intro e
    simp only [hG]
    rfl
  · have hG : g.Group Name = .error .tooManyHandlers := by
      simp [RouterGroup.Group, RouterGroup.combineHandlers, hlen]
    constructor
    · intro e e1 h1
      simp [hG] at h1
    · intro e F _ _ _ _ hC
      exact absurd hC.1 hlen

mutual
/-- Mounting a handler under a scope registers the routes it asks for. -/
theorem realises_mount (h : Handler) (g : RouterGroup) :
    Realises (h.mount g) (h.planned g) (h.scopesOK g) := by
  match h with
  | .mk Name Middlewares Actions SubHandlers =>
    have hsubs := realises_mountSubs SubHandlers (g.scope Name Middlewares)
    have hacts := realises_mountActions (g.scope Name Middlewares) Actions.entries
    have hseq := realises_group g Name Middlewares
      (fun g1 e => match mountActions g1 Actions.entries e with
        | .error p => .error p
        | .ok e1 => Handler.mountSubs SubHandlers g1 e1) _ _ (realises_seq hacts hsubs)
    refine realises_congr ?_ ?_ ?_ hseq
    · intro e
      rw [Handler.mount]
    · rw [Handler.planned]
    · rw [Handler.scopesOK]
      simp
/-- Mounting a list of sub-handlers under a scope registers the routes they ask for. -/
theorem realises_mountSubs (subs : List Handler) (g : RouterGroup) :
    Realises (Handler.mountSubs subs g) (Handler.plannedSubs subs g)
      (Handler.scopesOKSubs subs g) := by
  match subs with
  | [] =>
    refine realises_congr ?_ ?_ ?_ realises_ok
    · intro e
      rw [Handler.mountSubs]
    · rw [Handler.plannedSubs]
    · rw [Handler.scopesOKSubs]
  | sub :: rest =>
    refine realises_congr ?_ ?_ ?_
      (realises_seq (realises_mount sub g) (realises_mountSubs rest g))
    · intro e
      rw [Handler.mountSubs]
    · rw [Handler.plannedSubs]
    · rw [Handler.scopesOKSubs]
end

/-- When `Mount` returns, the router holds its former routes followed by the routes asked
for; the keys stay distinct, the new routes pass the router's assertions, and every scope
was opened under a chain shorter than `abortIndex`. -/
theorem Mount_ok (h : Handler) (r0 e : Engine) (hok : h.Mount r0 = .ok e) :
    e = { r0 with routes := r0.routes ++ h.planned r0.RouterGroup } ∧
    ((r0.routes.map Route.key).Nodup → (e.routes.map Route.key).Nodup) ∧
    (∀ r ∈ h.planned r0.RouterGroup, Checked r) ∧ h.scopesOK r0.RouterGroup := by
  obtain ⟨he, hnd, hc, hs⟩ := (realises_mount h r0.RouterGroup).1 r0 e hok
  refine ⟨he, ?_, hc, hs⟩
  intro h0
  rw [he]
  exact hnd h0

/-- `Mount` returns when the routes, the router's and the ones asked for, have distinct keys
and no path parameter, the routes asked for pass the router's assertions, and every scope is
opened under a chain shorter than `abortIndex`. -/
theorem Mount_returns (h : Handler) (r0 : Engine)
    (hnd : ((r0.routes ++ h.planned r0.RouterGroup).map Route.key).Nodup)
    (hfixed : ∀ r ∈ r0.routes ++ h.planned r0.RouterGroup, hasWildcard r.path = false)
    (hchecked : ∀ r ∈ h.planned r0.RouterGroup, Checked r)
    (hscopes : h.scopesOK r0.RouterGroup) :
    h.Mount r0 = .ok { r0 with routes := r0.routes ++ h.planned r0.RouterGroup } :=
  (realises_mount h r0.RouterGroup).2 r0 _ (List.prefix_refl _) hnd hfixed hchecked hscopes

mutual
/-- Scopes are opened under short chains when the chain of every reachable group is
short. -/
theorem scopesOK_of_chains (h : Handler) (g : RouterGroup)
    (hc : ∀ (groups : List Handler) (G : Handler), Descent h groups G →
      g.Handlers.length + (middlewareChain groups).length + 1 < abortIndex) :
    h.scopesOK g := by
  match h with
  | .mk Name Middlewares Actions SubHandlers =>
    rw [Handler.scopesOK]
    constructor
    · have := hc _ _ (Descent.here (.mk Name Middlewares Actions SubHandlers))
      omega
    · apply scopesOKSubs_of_chains SubHandlers
      intro s hs groups G hd
      have := hc _ _ (Descent.sub hs hd)
      simp only [middlewareChain, List.map_cons, List.flatten_cons, List.length_append,
        Handler.Middlewares] at this
      simp only [RouterGroup.scope, List.length_append, middlewareChain]
      omega
/-- The same for a list of sub-handlers. -/
theorem scopesOKSubs_of_chains (subs : List Handler) (g : RouterGroup)
    (hc : ∀ s ∈ subs, ∀ (groups : List Handler) (G : Handler), Descent s groups G →
      g.Handlers.length + (middlewareChain groups).length + 1 < abortIndex) :
    Handler.scopesOKSubs subs g := by
  match subs with
  | [] => rw [Handler.scopesOKSubs]; trivial
  | sub :: rest =>
    rw [Handler.scopesOKSubs]
    exact ⟨scopesOK_of_chains sub g (hc sub (List.mem_cons_self _ _)),
      scopesOKSubs_of_chains rest g (fun s hs => hc s (List.mem_cons_of_mem _ hs))⟩
end

/-- The routes asked for under a rooted scope pass the router's assertions when the chains
are short. -/
theorem checked_of_registers (h : Handler) (g : RouterGroup) (t : List Char)
    (hg : g.basePath = String.mk ('/' :: t))
    (hc : ∀ (groups : List Handler) (G : Handler), Descent h groups G →
      g.Handlers.length + (middlewareChain groups).length + 1 < abortIndex)
    (r : Route) (hr : Registers h g r) : Checked r := by
  obtain ⟨groups, G, key, action, hd, -, hserves, hpath, hhandlers⟩ := hr
  refine ⟨?_, ?_, ?_⟩
  · obtain ⟨t1, h1⟩ := foldl_joinPaths_rooted (groups.map Handler.Name) t
    obtain ⟨t2, h2⟩ := joinPaths_rooted t1 key
    rw [hpath, routePath, hg, h1, h2]
    rfl
  · rcases hserves with ⟨hm, -⟩ | ⟨hm, -⟩ <;> rw [hm] <;> decide
  · have := hc groups G hd
    rw [hhandlers]
    simp only [List.length_append, List.length_singleton]
    omega

/-- C1, as stated, fails: in a tree with two sub-groups of one name that hold the same key,
the two actions ask for one method and path, GET /v1/a/x; the router refuses the second
registration by a panic, and `Mount` does not return a router at all. -/
theorem mount_panics_on_twins :
    (twinGroups.planned (ginNew acceptAll).RouterGroup).map Route.key
      = [("GET", "/v1/a/x"), ("GET", "/v1/a/x")] ∧
    twinGroups.Mount (ginNew acceptAll) = .error (.alreadyRegistered "/v1/a/x") ∧
    ∀ e : Engine, twinGroups.Mount (ginNew acceptAll) ≠ .ok e := by
  refine ⟨by decide, rfl, ?_⟩
  intro e h
  have h1 : twinGroups.Mount (ginNew acceptAll) = .error (.alreadyRegistered "/v1/a/x") := rfl
  rw [h1] at h
  cases h

/-- C1, amended: whenever mounting a handler tree on an empty router returns, a route of
method `method` at `path` dispatching to `handler` is registered if and only if some group
`G` reachable from the tree holds an action under a key such that the method is GET with
the GET bit of the action's mask set, or POST with the POST bit set, the path is the join of
the names of the groups from the root down to `G` followed by the key, and the handler is
that action's handler; no method and path is registered twice. An action with neither bit
set gives no route. Mounting does return, with the routes asked for, when these are
pairwise distinct in method and path, hold no path parameter, and the middleware of the
groups on the way to any group counts fewer than `abortIndex` - 1 = 62 entries. The join is
the router's: for plain names and a plain key the path is a slash followed by the names
and the key separated by slashes. -/
theorem mount_routes (h : Handler) (tree : List Route → Route → Bool) :
    (∀ e : Engine, h.Mount (ginNew tree) = .ok e →
      (∀ (method path : String) (handler : HandlerFunc),
        (∃ r ∈ e.routes,
          r.method = method ∧ r.path = path ∧ r.handlers.getLast? = some handler) ↔
        ∃ (groups : List Handler) (G : Handler) (key : String) (action : Action),
          Descent h groups G ∧ AList.lookup key G.Actions = some action ∧
          action.serves method ∧
          path = routePath "/" (groups.map Handler.Name) key ∧
          handler = action.GetHandler) ∧
      (e.routes.map Route.key).Nodup) ∧
    (((h.planned (ginNew tree).RouterGroup).map Route.key).Nodup →
      (∀ r ∈ h.planned (ginNew tree).RouterGroup, hasWildcard r.path = false) →
      (∀ (groups : List Handler) (G : Handler), Descent h groups G →
        (middlewareChain groups).length + 1 < abortIndex) →
      ∃ e : Engine, h.Mount (ginNew tree) = .ok e ∧
        e.routes = h.planned (ginNew tree).RouterGroup) ∧
    (∀ (names : List String) (key : String),
      (∀ n ∈ names, PlainSegment n.data) → PlainSegment key.data →
      routePath "/" names key
        = String.mk ('/' :: List.intercalate ['/'] ((names ++ [key]).map String.data))) := by
  refine ⟨?_, ?_, routePath_plain⟩
  · intro e hok
    obtain ⟨he, hnd, -, -⟩ := Mount_ok h (ginNew tree) e hok
    refine ⟨?_, hnd (by simp [ginNew])⟩
    intro method path handler
    rw [he]
    simp only [ginNew, List.nil_append, mem_planned, Registers]
    constructor
    · rintro ⟨r, ⟨groups, G, key, action, hd, hlook, hserves, hpath, hhandlers⟩, hm, hp, hlast⟩
      refine ⟨groups, G, key, action, hd, hlook, hm ▸ hserves, hp ▸ hpath, ?_⟩
      rw [hhandlers, List.getLast?_append] at hlast
      simpa using hlast.symm
    · rintro ⟨groups, G, key, action, hd, hlook, hserves, hpath, hhandler⟩
      refine ⟨⟨method, path, [] ++ middlewareChain groups ++ [action.GetHandler]⟩,
        ⟨groups, G, key, action, hd, hlook, hserves, hpath, rfl⟩, rfl, rfl, ?_⟩
      rw [List.getLast?_append]
      simp [hhandler]
  · intro hnd hfixed hchains
    have hc : ∀ (groups : List Handler) (G : Handler), Descent h groups G →
        (ginNew tree).RouterGroup.Handlers.length + (middlewareChain groups).length + 1
          < abortIndex := by
      intro groups G hd
      have := hchains groups G hd
      simpa [ginNew] using this
    refine ⟨_, Mount_returns h (ginNew tree) (by simpa [ginNew] using hnd)
      (by simpa [ginNew] using hfixed) ?_ (scopesOK_of_chains h _ hc), by simp [ginNew]⟩
    intro r hr
    exact checked_of_registers h _ [] rfl hc r ((mem_planned h _ r).mp hr)

/-- C1, amended, on the tree of `TestHandlerMount`: groups "1" > "2" > "3", each with the
key "/test", give POST /1/test, GET /1/2/test and GET /1/2/3/test, and nothing else; the
route of group "3" dispatches to its action's handler; and the tree meets the condition
under which mounting returns. -/
theorem mount_routes_witness :
    ((testH1.Mount (ginNew acceptAll)).toOption.map fun e => e.routes.map Route.key)
      = some [("POST", "/1/test"), ("GET", "/1/2/test"), ("GET", "/1/2/3/test")] ∧
    (∃ e : Engine, testH1.Mount (ginNew acceptAll) = .ok e ∧
      ∃ r ∈ e.routes, r.method = "GET" ∧ r.path = "/1/2/3/test" ∧
        r.handlers.getLast? = some (NewAction GET actionTest false).GetHandler) ∧
    ∃ e : Engine, testH1.Mount (ginNew acceptAll) = .ok e ∧
      e.routes = testH1.planned (ginNew acceptAll).RouterGroup :=
  ⟨by decide,
   ⟨{ ginNew acceptAll with routes := testH1.planned (ginNew acceptAll).RouterGroup }, rfl,
    (((mount_routes testH1 acceptAll).1 _ rfl).1 "GET" "/1/2/3/test"
        (NewAction GET actionTest false).GetHandler).mpr
      ⟨[testH1, testH2, testH3], testH3, "/test", NewAction GET actionTest false,
       Descent.sub (List.mem_singleton.mpr rfl)
         (Descent.sub (List.mem_singleton.mpr rfl) (Descent.here testH3)),
       rfl, Or.inl ⟨rfl, by decide⟩, by decide, rfl⟩⟩,
   (mount_routes testH1 acceptAll).2.1 (by decide) (by decide)
     (by
       intro groups G hd
       cases hd with
       | here => decide
       | sub hs hd =>
         rw [List.mem_singleton.mp hs] at hd
         cases hd with
         | here => decide
         | sub hs hd =>
           rw [List.mem_singleton.mp hs] at hd
           cases hd with
           | here => decide
           | sub hs hd => exact absurd hs (List.not_mem_nil _))⟩

/-- C2, as stated, fails: on the router of `TestHandlerMount`, `gin.Default()`, three
handlers run before the handler of each action, the logger and the recovery of the router
and then the middleware of group "1", while the middleware of the groups on the way to any
of the three groups is that one entry alone. -/
theorem mount_on_default_router :
    ((testH1.Mount (ginDefault acceptAll)).toOption.map fun e =>
        e.routes.map fun r => (r.method, r.path, r.handlers.dropLast.length))
      = some [("POST", "/1/test", 3), ("GET", "/1/2/test", 3), ("GET", "/1/2/3/test", 3)] ∧
    (middlewareChain [testH1]).length = 1 ∧
    (middlewareChain [testH1, testH2]).length = 1 ∧
    (middlewareChain [testH1, testH2, testH3]).length = 1 := by
  refine ⟨by decide, by decide, by decide, by decide⟩

/-- C2, amended: whenever mounting a handler tree on a router returns, a route is registered
if and only if it was registered before or it is the route of an action of a group `G`
reachable from the mounted tree and its handler chain is the middleware of the router
itself, followed by the middleware of the groups on the way from the root to `G`,
concatenated in root-to-`G` order, followed by the action's handler. The chain holds
nothing else: each entry before the handler comes from the router, from `G` or from an
ancestor of `G`, none from a sibling. -/
theorem mount_middleware (h : Handler) (r0 e : Engine) (hok : h.Mount r0 = .ok e)
    (r : Route) :
    r ∈ e.routes ↔ r ∈ r0.routes ∨
    ∃ (groups : List Handler) (G : Handler) (key : String) (action : Action),
      Descent h groups G ∧ AList.lookup key G.Actions = some action ∧
      action.serves r.method ∧
      r.path = routePath r0.RouterGroup.basePath (groups.map Handler.Name) key ∧
      r.handlers = r0.RouterGroup.Handlers ++ (groups.map Handler.Middlewares).flatten
        ++ [action.GetHandler] ∧
      ∀ mw ∈ r.handlers.dropLast,
        mw ∈ r0.RouterGroup.Handlers ∨ ∃ g ∈ groups, mw ∈ g.Middlewares := by
  obtain ⟨he, -, -, -⟩ := Mount_ok h r0 e hok
  rw [he]
  simp only [List.mem_append, mem_planned, Registers, middlewareChain]
  apply or_congr Iff.rfl
  constructor
  · rintro ⟨groups, G, key, action, hd, hlook, hserves, hpath, hhandlers⟩
    refine ⟨groups, G, key, action, hd, hlook, hserves, hpath, hhandlers, ?_⟩
    intro mw hmw
    rw [hhandlers, List.dropLast_concat] at hmw
    simpa [List.mem_flatten] using hmw
  · rintro ⟨groups, G, key, action, hd, hlook, hserves, hpath, hhandlers, -⟩
    exact ⟨groups, G, key, action, hd, hlook, hserves, hpath, hhandlers⟩

/-- C2, amended, on the tree of `TestHandlerMount`: on an empty router the middleware of
group "1" stands before the handler in the chain of the route of group "3", and it runs for
/1/test, /1/2/test and /1/2/3/test: each request is answered with the URL the middleware
stored. On a tree with two sibling groups, a request to the second group runs the
middleware of the root and of that group, and not the middleware of its sibling. -/
theorem mount_middleware_witness :
    (∃ e : Engine, testH1.Mount (ginNew acceptAll) = .ok e ∧
      ({ method := "GET", path := "/1/2/3/test",
         handlers := [testMiddleware, (NewAction GET actionTest false).GetHandler] } : Route)
        ∈ e.routes) ∧
    ((testH1.Mount (ginNew acceptAll)).toOption.bind fun e =>
        (e.serve (Process.init id) "POST" "/1/test").map GinContext.rendered)
      = some [(200, { Code := 0, Info := .str "/1/test" })] ∧
    ((testH1.Mount (ginNew acceptAll)).toOption.bind fun e =>
        (e.serve (Process.init id) "GET" "/1/2/test").map GinContext.rendered)
      = some [(200, { Code := 0, Info := .str "/1/2/test" })] ∧
    ((testH1.Mount (ginNew acceptAll)).toOption.bind fun e =>
        (e.serve (Process.init id) "GET" "/1/2/3/test").map GinContext.rendered)
      = some [(200, { Code := 0, Info := .str "/1/2/3/test" })] ∧
    ((siblingTree.Mount (ginNew acceptAll)).toOption.map fun e =>
        e.routes.map fun r => (r.method, r.path, r.handlers.length))
      = some [("POST", "/v1/one/api1", 3), ("POST", "/v1/two/api2", 3)] ∧
    ((siblingTree.Mount (ginNew acceptAll)).toOption.bind fun e =>
        (e.serve (Process.init id) "POST" "/v1/two/api2").map fun c => c.Keys.map Prod.fst)
      = some ["two", "v1"] :=
  ⟨⟨{ ginNew acceptAll with routes := testH1.planned (ginNew acceptAll).RouterGroup }, rfl,
    (mount_middleware testH1 (ginNew acceptAll) _ rfl _).mpr
     (Or.inr ⟨[testH1, testH2, testH3], testH3, "/test", NewAction GET actionTest false,
      Descent.sub (List.mem_singleton.mpr rfl)
        (Descent.sub (List.mem_singleton.mpr rfl) (Descent.here testH3)),
      rfl, Or.inl ⟨rfl, by decide⟩, by decide, rfl,
      by
        intro mw hmw
        exact Or.inr ⟨testH1, List.mem_cons_self _ _, hmw⟩⟩)⟩,
   rfl, rfl, rfl, by decide, by decide⟩

/-- Splitting at slashes a list followed by a slash and another list. -/
theorem splitOn_append (l k : List Char) :
    List.splitOn '/' (l ++ '/' :: k) = List.splitOn '/' l ++ List.splitOn '/' k := by
  unfold List.splitOn
  induction l with
  | nil => simp [List.splitOnP_cons, List.splitOnP_nil]
  | cons x xs ih =>
    simp only [List.cons_append, List.splitOnP_cons, ih]
    by_cases hx : (x == '/') = true
    · simp [hx]
    · simp only [hx, if_false]
      have hne := List.splitOnP_ne_nil (fun x => x == '/') xs
      cases hsp : List.splitOnP (fun x => x == '/') xs with
      | nil => exact absurd hsp hne
      | cons a t => simp [List.modifyHead]

/-- No element of a list split at slashes holds a slash. -/
theorem splitOn_no_slash (l : List Char) : ∀ e ∈ List.splitOn '/' l, '/' ∉ e := by
  unfold List.splitOn
  induction l with
  | nil => simp [List.splitOnP_nil]
  | cons x xs ih =>
    simp only [List.splitOnP_cons]
    by_cases hx : (x == '/') = true
    · simp only [hx, if_true, List.mem_cons]
      rintro e (rfl | he)
      · simp
      · exact ih e he
    · simp only [hx, if_false]
      have hne := List.splitOnP_ne_nil (fun x => x == '/') xs
      cases hsp : List.splitOnP (fun x => x == '/') xs with
      | nil => exact absurd hsp hne
      | cons a t =>
        rw [hsp] at ih
        simp only [List.modifyHead]
        intro e he
        rcases List.mem_cons.mp he with rfl | he
        · have ha := ih a (List.mem_cons_self _ _)
          have hx1 : x ≠ '/' := by simpa using hx
          simp only [List.mem_cons, not_or]
          exact ⟨fun h => hx1 h.symm, ha⟩
        · exact ih e (List.mem_cons_of_mem _ he)

/-- The element pass over two lists of elements, one after the other. -/
theorem cleanElems_append (rooted : Bool) (A B out : List (List Char)) :
    cleanElems rooted (A ++ B) out
      = cleanElems rooted B (cleanElems rooted A out).reverse := by
  induction A generalizing out with
  | nil => simp [cleanElems]
  | cons e es ih =>
    simp only [List.cons_append, cleanElems]
    split_ifs <;> first | exact ih _ | (split <;> first | exact ih _ | (split_ifs <;> exact ih _))

/-- On elements without `..`, the element pass keeps the proper elements in order. -/
theorem cleanElems_below (rooted : Bool) (B out : List (List Char))
    (hB : ['.', '.'] ∉ B) :
    cleanElems rooted B out = out.reverse ++ B.filter properElem := by
  induction B generalizing out with
  | nil => simp [cleanElems]
  | cons e es ih =>
    have he : e ≠ ['.', '.'] := fun h => hB (h ▸ List.mem_cons_self _ _)
    have hes : ['.', '.'] ∉ es := fun h => hB (List.mem_cons_of_mem _ h)
    by_cases h1 : e = [] ∨ e = ['.']
    · have hp : properElem e = false := by
        rcases h1 with h | h <;> simp [properElem, h]
      simp only [cleanElems, h1, if_true]
      rw [ih _ hes, List.filter_cons_of_neg (by simp [hp])]
    · have hp : properElem e = true := by
        simp only [not_or] at h1
        simp [properElem, h1.1, h1.2]
      simp only [cleanElems, h1, he, if_false]
      rw [ih _ hes, List.filter_cons_of_pos hp]
      simp

/-- Joining two lists of elements that are not empty. -/
theorem intercalate_append (sep : List Char) (xs ys : List (List Char)) (hxs : xs ≠ [])
    (hys : ys ≠ []) :
    List.intercalate sep (xs ++ ys)
      = List.intercalate sep xs ++ sep ++ List.intercalate sep ys := by
  induction xs with
  | nil => exact absurd rfl hxs
  | cons a t ih =>
    cases t with
    | nil =>
      cases ys with
      | nil => exact absurd rfl hys
      | cons b r => simp [List.intercalate]
    | cons b r =>
      have := ih (by simp)
      simp only [List.intercalate, List.cons_append, List.intersperse_cons_cons,
        List.flatten_cons, List.append_assoc] at this ⊢
      rw [this]

/-- The elements of a key are proper and hold no slash. -/
theorem keyElems_spec (k : String) :
    ∀ e ∈ keyElems k, e ≠ [] ∧ '/' ∉ e := by
  intro e he
  obtain ⟨hmem, hp⟩ := List.mem_filter.mp he
  refine ⟨?_, splitOn_no_slash _ e hmem⟩
  intro h
  simp [properElem, h] at hp

/-- A path that ends with the elements of a key does not end with a slash. -/
theorem getLast_intercalate (pre : List Char) (Q : List (List Char)) (hQ : Q ≠ [])
    (hel : ∀ e ∈ Q, e ≠ [] ∧ '/' ∉ e) :
    (pre ++ List.intercalate ['/'] Q).getLast? ≠ some '/' := by
  obtain ⟨Q1, q, rfl⟩ : ∃ Q1 q, Q = Q1 ++ [q] :=
    ⟨Q.dropLast, Q.getLast hQ, (List.dropLast_append_getLast hQ).symm⟩
  obtain ⟨hq1, hq2⟩ := hel q (by simp)
  have hend : ∃ X, pre ++ List.intercalate ['/'] (Q1 ++ [q]) = X ++ q := by
    by_cases h1 : Q1 = []
    · subst h1
      exact ⟨pre, by simp [List.intercalate]⟩
    · rw [intercalate_concat ['/'] Q1 h1 q]
      exact ⟨pre ++ (List.intercalate ['/'] Q1 ++ ['/']), by simp [List.append_assoc]⟩
  obtain ⟨X, hX⟩ := hend
  rw [hX, List.getLast?_append_of_ne_nil _ hq1]
  intro h
  exact hq2 (List.mem_of_mem_getLast? h)

/-- Under a rooted base path, the path of a key that leads below its group is made of a
prefix that depends on the base path only, the elements of the key separated by slashes, and
a slash at the end when the key ends with one. -/
theorem joinPaths_below (t : List Char) (k : String) (hk : KeyBelow k) :
    joinPaths (String.mk ('/' :: t)) k
      = String.mk (keyPrefix (String.mk ('/' :: t)) ++ List.intercalate ['/'] (keyElems k)
          ++ (if k.data.getLast? = some '/' then ['/'] else [])) := by
  obtain ⟨hne, hdots⟩ := hk
  have hk0 : k ≠ "" := by
    intro h
    subst h
    exact hne (by decide)
  have hclean : cleanElems true (List.splitOn '/' ('/' :: t ++ '/' :: k.data)) []
      = cleanElems true (List.splitOn '/' ('/' :: t)) [] ++ keyElems k := by
    rw [splitOn_append ('/' :: t) k.data, cleanElems_append, cleanElems_below _ _ _ hdots]
    simp [keyElems]
  have hfinal : pathJoin [String.mk ('/' :: t), k]
      = String.mk (keyPrefix (String.mk ('/' :: t)) ++ List.intercalate ['/'] (keyElems k)) := by
    rw [pathJoin_rooted, hclean]
    unfold keyPrefix
    cases hE : cleanElems true (List.splitOn '/' ('/' :: t)) [] with
    | nil => simp
    | cons e es =>
      rw [intercalate_append ['/'] (e :: es) (keyElems k) (by simp) hne]
      simp [List.append_assoc]
  have hlast : (pathJoin [String.mk ('/' :: t), k]).data.getLast? ≠ some '/' := by
    rw [hfinal]
    exact getLast_intercalate _ _ hne (keyElems_spec k)
  unfold joinPaths
  rw [if_neg hk0]
  dsimp only
  by_cases hs : k.data.getLast? = some '/'
  · rw [if_pos ⟨hs, hlast⟩, if_pos hs, hfinal]
    rfl
  · rw [if_neg (fun h => hs h.1), if_neg hs, hfinal]
    simp

/-- The elements of a key and its trailing slash can be read off the path. -/
theorem intercalate_injective (Q1 Q2 : List (List Char)) (b1 b2 : Prop) [Decidable b1]
    [Decidable b2] (h1 : Q1 ≠ []) (h2 : Q2 ≠ [])
    (hel1 : ∀ e ∈ Q1, e ≠ [] ∧ '/' ∉ e) (hel2 : ∀ e ∈ Q2, e ≠ [] ∧ '/' ∉ e)
    (h : List.intercalate ['/'] Q1 ++ (if b1 then ['/'] else [])
      = List.intercalate ['/'] Q2 ++ (if b2 then ['/'] else [])) :
    Q1 = Q2 ∧ (b1 ↔ b2) := by
  have hform : ∀ (Q : List (List Char)) (b : Prop) [Decidable b], Q ≠ [] →
      List.intercalate ['/'] Q ++ (if b then ['/'] else [])
        = List.intercalate ['/'] (Q ++ (if b then [[]] else [])) := by
    intro Q b _ hQ
    by_cases hb : b
    · simp only [if_pos hb]
      rw [intercalate_concat ['/'] Q hQ []]
      simp
    · simp only [if_neg hb, List.append_nil]
  rw [hform Q1 b1 h1, hform Q2 b2 h2] at h
  have hsplit : ∀ (Q : List (List Char)) (b : Prop) [Decidable b], Q ≠ [] →
      (∀ e ∈ Q, e ≠ [] ∧ '/' ∉ e) →
      List.splitOn '/' (List.intercalate ['/'] (Q ++ (if b then [[]] else [])))
        = Q ++ (if b then [[]] else []) := by
    intro Q b _ hQ hel
    apply List.splitOn_intercalate
    · intro l hl
      rcases List.mem_append.mp hl with hl | hl
      · exact (hel l hl).2
      · split_ifs at hl
        · rw [List.mem_singleton.mp hl]
          simp
        · simp at hl
    · simp [hQ]
  have h3 := congrArg (List.splitOn '/') h
  rw [hsplit Q1 b1 h1 hel1, hsplit Q2 b2 h2 hel2] at h3
  have hfilter : ∀ (Q : List (List Char)) (b : Prop) [Decidable b],
      (∀ e ∈ Q, e ≠ [] ∧ '/' ∉ e) →
      (Q ++ (if b then [[]] else [])).filter (fun e => decide (e ≠ [])) = Q := by
    intro Q b _ hel
    rw [List.filter_append]
    have hq : Q.filter (fun e => decide (e ≠ [])) = Q :=
      List.filter_eq_self.mpr (fun e he => by simpa using (hel e he).1)
    rw [hq]
    split_ifs <;> simp
  have hQ : Q1 = Q2 := by
    have := congrArg (List.filter (fun e => decide (e ≠ []))) h3
    rwa [hfilter Q1 b1 hel1, hfilter Q2 b2 hel2] at this
  subst hQ
  refine ⟨rfl, ?_⟩
  have h4 := List.append_cancel_left h3
  by_cases hb1 : b1 <;> by_cases hb2 : b2 <;> simp [hb1, hb2] at h4 ⊢

/-- Two keys that lead below their group are registered at one path exactly when they have
the same path elements and agree on a trailing slash. -/
theorem routePath_below (names : List String) (k1 k2 : String)
    (h1 : KeyBelow k1) (h2 : KeyBelow k2) :
    routePath "/" names k1 = routePath "/" names k2 ↔
      keyElems k1 = keyElems k2 ∧
        (k1.data.getLast? = some '/' ↔ k2.data.getLast? = some '/') := by
  unfold routePath
  have h0 : ("/" : String) = String.mk ('/' :: []) := rfl
  obtain ⟨t, ht⟩ := foldl_joinPaths_rooted names []
  rw [h0, ht, joinPaths_below t k1 h1, joinPaths_below t k2 h2]
  constructor
  · intro h
    have hdata := congrArg String.data h
    simp only [List.append_assoc] at hdata
    have := List.append_cancel_left hdata
    exact intercalate_injective _ _ _ _ h1.1 h2.1 (keyElems_spec k1) (keyElems_spec k2) this
  · rintro ⟨hq, hb⟩
    rw [hq]
    by_cases hb1 : k1.data.getLast? = some '/'
    · rw [if_pos hb1, if_pos (hb.mp hb1)]
    · rw [if_neg hb1, if_neg (fun h => hb1 (hb.mpr h))]

/-- Two action maps with the same entries in different iteration orders ask for the same
routes, in different orders. -/
theorem planned_perm (Name : String) (Middlewares : List HandlerFunc)
    (A1 A2 : AList (fun _ : String => Action)) (SubHandlers : List Handler)
    (hperm : A1.entries.Perm A2.entries) (g : RouterGroup) :
    ((Handler.mk Name Middlewares A1 SubHandlers).planned g).Perm
      ((Handler.mk Name Middlewares A2 SubHandlers).planned g) := by
  rw [Handler.planned, Handler.planned]
  exact ((hperm.map _).flatten).append_right _

/-- C18, as stated, fails: the distinct keys "test" and "/test" of one group lead to one and
the same path, /1/test, and the router refuses the second registration by a panic. The key
"a/../test", whose elements differ from those of "test", leads to that path as well, and
the keys "" and ".", which have no element, both lead to the path of the group. -/
theorem distinct_keys_one_path :
    ("test" : String) ≠ "/test" ∧
    clashingGroup.Actions.keys = ["/test", "test"] ∧
    routePath "/" ["1"] "test" = "/1/test" ∧
    routePath "/" ["1"] "/test" = "/1/test" ∧
    clashingGroup.Mount (ginNew acceptAll) = .error (.alreadyRegistered "/1/test") ∧
    routePath "/" ["1"] "a/../test" = "/1/test" ∧
    routePath "/" ["1"] "" = "/1" ∧
    routePath "/" ["1"] "." = "/1" := by
  refine ⟨by decide, by decide, by decide, by decide, rfl, by decide, by decide, by decide⟩

/-- C18, amended: under any list of group names, two keys that lead below their group (each
has a path element, and no element `..`) are registered at one path if and only if they
have the same path elements, empty elements and `.` left out, and both or neither end with
a slash; distinct keys of that kind which differ in an element or in the trailing slash are
registered at different paths. And when the mount of a group returns and no path holds a
parameter, it returns for every other order of iteration over the action map of the group
as well, with the same routes. -/
theorem keys_distinct_paths (names : List String) (k1 k2 : String)
    (h1 : KeyBelow k1) (h2 : KeyBelow k2) :
    (routePath "/" names k1 = routePath "/" names k2 ↔
      keyElems k1 = keyElems k2 ∧
        (k1.data.getLast? = some '/' ↔ k2.data.getLast? = some '/')) ∧
    (∀ (tree : List Route → Route → Bool) (Name : String) (Middlewares : List HandlerFunc)
      (A1 A2 : AList (fun _ : String => Action)) (SubHandlers : List Handler) (e1 : Engine),
      A1.entries.Perm A2.entries →
      (Handler.mk Name Middlewares A1 SubHandlers).Mount (ginNew tree) = .ok e1 →
      (∀ r ∈ e1.routes, hasWildcard r.path = false) →
      ∃ e2 : Engine,
        (Handler.mk Name Middlewares A2 SubHandlers).Mount (ginNew tree) = .ok e2 ∧
        e1.routes.Perm e2.routes) := by
  refine ⟨routePath_below names k1 k2 h1 h2, ?_⟩
  intro tree Name Middlewares A1 A2 SubHandlers e1 hperm hok hfixed
  obtain ⟨he, hnd, hchecked, hscopes⟩ := Mount_ok _ _ _ hok
  have hp := planned_perm Name Middlewares A1 A2 SubHandlers hperm (ginNew tree).RouterGroup
  have hroutes : e1.routes = (Handler.mk Name Middlewares A1 SubHandlers).planned
      (ginNew tree).RouterGroup := by
    rw [he]
    simp [ginNew]
  have hnd1 := hnd (by simp [ginNew])
  rw [hroutes] at hnd1 hfixed
  refine ⟨_, Mount_returns (Handler.mk Name Middlewares A2 SubHandlers) (ginNew tree) ?_ ?_ ?_ ?_,
    ?_⟩
  · have : (ginNew tree).routes = [] := rfl
    rw [this, List.nil_append]
    exact ((hp.map Route.key).nodup_iff).mp hnd1
  · have : (ginNew tree).routes = [] := rfl
    rw [this, List.nil_append]
    intro r hr
    exact hfixed r (hp.mem_iff.mpr hr)
  · intro r hr
    exact hchecked r (hp.mem_iff.mpr hr)
  · rw [Handler.scopesOK] at hscopes ⊢
    exact hscopes
  · rw [hroutes]
    have : (ginNew tree).routes = [] := rfl
    simp only [this, List.nil_append]
    exact hp

/-- C18, amended, on the keys of the test and of the example controllers: the keys "/test"
and "/other" lead below their group and are registered at different paths, as are "api1" and
"api2" under the group "v1"; the keys "test" and "/test" have the same element. -/
theorem keys_distinct_paths_witness :
    KeyBelow "/test" ∧ KeyBelow "/other" ∧
    routePath "/" ["1"] "/test" ≠ routePath "/" ["1"] "/other" ∧
    routePath "/" ["v1"] "api1" = "/v1/api1" ∧
    routePath "/" ["v1"] "api2" = "/v1/api2" ∧
    routePath "/" ["v1"] "api1" ≠ routePath "/" ["v1"] "api2" ∧
    routePath "/" ["1"] "test" = routePath "/" ["1"] "/test" :=
  ⟨by unfold KeyBelow; decide, by unfold KeyBelow; decide,
   fun h => absurd ((keys_distinct_paths ["1"] "/test" "/other" (by unfold KeyBelow; decide)
     (by unfold KeyBelow; decide)).1.mp h).1 (by decide),
   by decide, by decide,
   fun h => absurd ((keys_distinct_paths ["v1"] "api1" "api2" (by unfold KeyBelow; decide)
     (by unfold KeyBelow; decide)).1.mp h).1 (by decide),
   (keys_distinct_paths ["1"] "test" "/test" (by unfold KeyBelow; decide)
     (by unfold KeyBelow; decide)).1.mpr ⟨by decide, by decide⟩⟩

/-- C16 at a concrete error with title "db" wrapping the error "timeout": the answer is
"db" in release mode and "db: timeout" in debug and test mode; status and code are the
ones the error was built with. -/
theorem LoggerError_ErrorInfo_witness :
    ({ Status := 500, Code := CodeUnknownError,
       toContextError := { title := "db", err := some (.other "timeout") } }
        : LoggerError GoError).ErrorInfo (SetMode "release" (Process.init id)) = "db" ∧
    ({ Status := 500, Code := CodeUnknownError,
       toContextError := { title := "db", err := some (.other "timeout") } }
        : LoggerError GoError).ErrorInfo (Process.init id) = "db: timeout" ∧
    ({ Status := 500, Code := CodeUnknownError,
       toContextError := { title := "db", err := some (.other "timeout") } }
        : LoggerError GoError).ErrorInfo (SetMode "test" (Process.init id)) = "db: timeout" ∧
    (NewLoggerError 404 CodeSoundNotFound "no sound").StatusCode = 404 ∧
    (NewLoggerError 404 CodeSoundNotFound "no sound").ErrorCode = 200110001 :=
  ⟨(LoggerError_ErrorInfo (SetMode "release" (Process.init id)) _ 0 0 "").1.trans
     (by decide),
   (LoggerError_ErrorInfo (Process.init id) _ 0 0 "").1.trans (by decide),
   (LoggerError_ErrorInfo (SetMode "test" (Process.init id)) _ 0 0 "").1.trans (by decide),
   (LoggerError_ErrorInfo (Process.init id) (NewLoggerError 0 0 "") 404 CodeSoundNotFound
     "no sound").2.2.2.2.1,
   (LoggerError_ErrorInfo (Process.init id) (NewLoggerError 0 0 "") 404 CodeSoundNotFound
     "no sound").2.2.2.2.2.1⟩

end GinHandler
